import Mathlib

/-!
Shallow embedding of the coworking booking allocation engine
(services/booking-service/crud.py) and proofs about its specification.

Modelling conventions:
* time is `Int` (an abstract count of minutes); the source normalizes every
  timestamp to naive/aware UTC before comparing, so a single integer timeline
  is faithful.
* Nullable foreign-key columns (`Slot.place_id`, `Place.zone_id`,
  `Booking.slot_id`) are `Option Nat`; SQL `NULL` comparisons exclude the row,
  which the `Option` matches reproduce.
* The database session becomes explicit state passing: each operation maps a
  `DB` value to a result together with the post-commit `DB`.  A commit-time
  `IntegrityError` raised by the store (a concurrent writer winning a unique
  constraint) is modelled by a boolean `ie` input consulted exactly at the
  commit points; when it fires the operation rolls back to the pre-state, as
  the `except IntegrityError` handlers in the source do.
* The configured `settings.MAX_BOOKING_HOURS` is an explicit parameter `maxH`.
* The current clock (`msk_to_utc(now_msk())`) is an explicit parameter `now`.
-/

namespace CoworkingBooking


instance {ε α : Type} [DecidableEq ε] [DecidableEq α] : DecidableEq (Except ε α) := by
  intro a b
  cases a <;> cases b <;>
    first
      | (apply isFalse; intro h; exact Except.noConfusion h)
      | (rename_i x y
         by_cases hxy : x = y
         · exact isTrue (by rw [hxy])
         · apply isFalse; intro h; injection h; contradiction)

inductive Status where
  | active
  | cancelled
  | completed
deriving DecidableEq

structure Zone where
  id : Nat
  name : String
  address : String
  is_active : Bool
  closure_reason : Option String := none
  closed_until : Option Int := none
deriving DecidableEq

structure Place where
  id : Nat
  zone_id : Option Nat
  name : String := ""
  is_active : Bool
deriving DecidableEq

structure Slot where
  id : Nat
  place_id : Option Nat
  start_time : Int
  end_time : Int
  is_available : Bool
deriving DecidableEq

structure Booking where
  id : Nat
  user_id : Nat
  slot_id : Option Nat
  status : Status
  zone_name : Option String := none
  zone_address : Option String := none
  start_time : Option Int
  end_time : Option Int
  cancellation_reason : Option String := none
deriving DecidableEq

structure DB where
  zones : List Zone
  places : List Place
  slots : List Slot
  bookings : List Booking
deriving DecidableEq

def findZone (db : DB) (zid : Nat) : Option Zone :=
  db.zones.find? (fun z => z.id == zid)

def findPlace (db : DB) (pid : Nat) : Option Place :=
  db.places.find? (fun p => p.id == pid)

def findSlot (db : DB) (sid : Nat) : Option Slot :=
  db.slots.find? (fun s => s.id == sid)

def findBooking (db : DB) (bid : Nat) : Option Booking :=
  db.bookings.find? (fun b => b.id == bid)

/-! ### Capacity checker (crud.check_zone_capacity) -/

/-- Does the booking's slot lie in the zone `zid`?  This is the join
`Booking → Slot → Place` with `Place.zone_id == zone_id` used by
`check_zone_capacity`; a `NULL` foreign key or a missing row drops the
booking from the join. -/
def slotInZone (db : DB) (zid : Nat) : Option Nat → Bool
  | none => false
  | some sid =>
    match findSlot db sid with
    | none => false
    | some sl =>
      match sl.place_id with
      | none => false
      | some pid =>
        match findPlace db pid with
        | none => false
        | some p => p.zone_id == some zid

/-- `b.start_time <= t < b.end_time` (rows with a `NULL` bound never match). -/
def containsT (b : Booking) (t : Int) : Bool :=
  match b.start_time, b.end_time with
  | some bs, some be => bs ≤ t && t < be
  | _, _ => false

/-- `Booking.start_time < end_time AND Booking.end_time > start_time`. -/
def overlapsRange (b : Booking) (s e : Int) : Bool :=
  match b.start_time, b.end_time with
  | some bs, some be => bs < e && be > s
  | _, _ => false

/-- `SELECT count(Place.id) WHERE Place.zone_id == zone_id AND Place.is_active`. -/
def activePlaceCount (db : DB) (zid : Nat) : Nat :=
  (db.places.filter (fun p => p.zone_id == some zid && p.is_active)).length

/-- The `active` bookings of the zone whose interval overlaps the candidate
`[s, e)` window, as fetched by `check_zone_capacity`. -/
def overlappingActive (db : DB) (zid : Nat) (s e : Int) : List Booking :=
  db.bookings.filter
    (fun b => slotInZone db zid b.slot_id && b.status == Status.active && overlapsRange b s e)

/-- Number of bookings in `bs` whose interval contains the instant `t`. -/
def countAt (bs : List Booking) (t : Int) : Nat :=
  (bs.filter (fun b => containsT b t)).length

/-- The boundary points collected by the sweep: the candidate's endpoints plus
every overlapping booking's start and end.  The source sorts and deduplicates
(`sorted(set(...))`); since the loop below tests every point independently,
ordering and duplication do not affect the verdict, so the raw list is kept. -/
def timePoints (s e : Int) (bs : List Booking) : List Int :=
  s :: e :: bs.foldr
    (fun b acc =>
      match b.start_time, b.end_time with
      | some bs', some be' => bs' :: be' :: acc
      | _, _ => acc)
    []

/-- One iteration of the sweep loop: out-of-range points are skipped
(`continue`), in-range points must keep the overlap count (plus one for the
candidate interval itself) within the capacity. -/
def pointOk (bs : List Booking) (cap : Nat) (s e t : Int) : Bool :=
  if t < s || e ≤ t then true
  else
    decide (countAt bs t + (if s ≤ t && t < e then 1 else 0) ≤ cap)

/-- crud.check_zone_capacity, lines 961-1024: zero active places is an
immediate refusal; otherwise every boundary point of the sweep must respect
the capacity. -/
def check_zone_capacity (db : DB) (zone_id : Nat) (start_time end_time : Int) : Bool :=
  let max_capacity := activePlaceCount db zone_id
  if max_capacity == 0 then false
  else
    let obs := overlappingActive db zone_id start_time end_time
    (timePoints start_time end_time obs).all (pointOk obs max_capacity start_time end_time)

/-- The capacity check as the specification words it (C2): false on a zone
with no active place; otherwise true exactly when, at every distinct boundary
point `t` drawn from the candidate's endpoints and the overlapping bookings'
starts and ends with `startTime ≤ t < endTime`, the number of bookings
containing `t` plus one for the candidate does not exceed the capacity. -/
def checkZoneCapacitySpec (db : DB) (zone_id : Nat) (start_time end_time : Int) : Bool :=
  let cap := activePlaceCount db zone_id
  if cap == 0 then false
  else
    let obs := overlappingActive db zone_id start_time end_time
    (timePoints start_time end_time obs).all
      (fun t => !(decide (start_time ≤ t) && decide (t < end_time)) ||
        decide (countAt obs t + 1 ≤ cap))

/-! ### Invariant counting -/

/-- The booking is `active`, lies (through its slot) in zone `zid`, and its
interval contains the instant `t`. -/
def countedIn (db : DB) (zid : Nat) (t : Int) (b : Booking) : Bool :=
  b.status == Status.active && slotInZone db zid b.slot_id && containsT b t

/-- Number of simultaneously active bookings of zone `zid` at instant `t`. -/
def activeCountIn (db : DB) (zid : Nat) (t : Int) : Nat :=
  (db.bookings.filter (countedIn db zid t)).length

/-! ### Engine operations (crud.py) -/

/-- crud.check_user_booking_conflicts, lines 201-220. -/
def check_user_booking_conflicts (db : DB) (user_id : Nat) (start_time end_time : Int)
    (exclude_booking_id : Option Nat) : Bool :=
  db.bookings.any (fun b =>
    b.user_id == user_id && b.status == Status.active &&
    (match b.start_time with | some bs => bs < end_time | none => false) &&
    (match b.end_time with | some be => be > start_time | none => false) &&
    (match exclude_booking_id with | some ex => b.id != ex | none => true))

/-- crud.auto_complete_expired_bookings with an explicit booking argument
(lines 43-50): complete it when still active and past its end. -/
def auto_complete_expired_booking (db : DB) (booking : Booking) (now : Int) : DB :=
  if booking.status == Status.active then
    match booking.end_time with
    | some be =>
      if be ≤ now then
        { db with bookings := db.bookings.map (fun x =>
            if x.id == booking.id then { booking with status := Status.completed } else x) }
      else db
    | none => db
  else db

/-- Effect of the bulk sweep on one booking row: the `WHERE status = 'active'
AND end_time IS NOT NULL AND end_time <= now` selection decides whether the
row is flipped to `completed`. -/
def sweepComplete (now : Int) (b : Booking) : Booking :=
  if b.status == Status.active &&
      (match b.end_time with | some be => be ≤ now | none => false)
    then { b with status := Status.completed } else b

/-- crud.auto_complete_expired_bookings without a booking argument
(lines 51-70): complete every active booking whose end has passed. -/
def auto_complete_expired_bookings (db : DB) (now : Int) : DB :=
  { db with bookings := db.bookings.map (sweepComplete now) }

/-- The place-then-zone loading chain shared by the fixed-slot create
(`slot.place_id` → `session.get(Place, ...)` → `session.get(Zone, ...)`) and
by extend (`Place` with `joinedload(Place.zone)`): `none` when any link of
the chain is absent. -/
def resolveZone (db : DB) : Option Nat → Option Zone
  | none => none
  | some pid =>
    match findPlace db pid with
    | none => none
    | some p =>
      match p.zone_id with
      | none => none
      | some w => findZone db w

/-- The Booking row inserted by the fixed-slot create: status `active`,
interval and denormalized zone fields copied from the slot's place's zone. -/
def mkSlotBooking (db : DB) (new_booking_id user_id : Nat) (slot : Slot) : Booking :=
  { id := new_booking_id, user_id := user_id, slot_id := some slot.id,
    status := Status.active,
    zone_name := (resolveZone db slot.place_id).map Zone.name,
    zone_address := (resolveZone db slot.place_id).map Zone.address,
    start_time := some slot.start_time, end_time := some slot.end_time }

/-- crud.create_booking, lines 222-302 (fixed-slot create).  `new_booking_id`
is the id the store assigns to the inserted row; `ie` signals an
`IntegrityError` raised at commit. -/
def create_booking (db : DB) (user_id : Nat) (slot_id : Nat)
    (new_booking_id : Nat) (ie : Bool) : Option Booking × DB :=
  match findSlot db slot_id with
  | none => (none, db)
  | some slot =>
    if !slot.is_available then (none, db)
    else if db.bookings.any (fun b =>
        b.user_id == user_id && b.slot_id == some slot.id && b.status == Status.active) then
      (none, db)
    else if check_user_booking_conflicts db user_id slot.start_time slot.end_time none then
      (none, db)
    else if (match resolveZone db slot.place_id with
             | some z => !(check_zone_capacity db z.id slot.start_time slot.end_time)
             | none => false) then
      (none, db)
    else if ie then (none, db)
    else
      (some (mkSlotBooking db new_booking_id user_id slot),
       { db with
         slots := db.slots.map (fun x =>
           if x.id == slot.id then { x with is_available := false } else x),
         bookings := db.bookings ++ [mkSlotBooking db new_booking_id user_id slot] })

/-- Input of create-by-time-range.  `date` is the result of
`date.fromisoformat(booking_in.date)`: `none` models a string the external
date parser rejects (a `ValueError`), `some d` the parsed calendar day. -/
structure BookingCreateTimeRange where
  zone_id : Nat
  date : Option Int
  start_hour : Nat
  start_minute : Nat
  end_hour : Nat
  end_minute : Nat
deriving DecidableEq

def mkRangeBooking (new_booking_id user_id slot_id : Nat) (zone : Zone) (s e : Int) : Booking :=
  { id := new_booking_id, user_id := user_id, slot_id := some slot_id,
    status := Status.active,
    zone_name := some zone.name, zone_address := some zone.address,
    start_time := some s, end_time := some e }

/-- The per-place loop of crud.create_booking_by_time_range, lines 375-459:
reuse an exact free slot, skip a busy place, or create a fresh slot when no
overlapping busy slot exists. -/
def tryPlaces (db : DB) (user_id : Nat) (zone : Zone) (s e : Int)
    (new_slot_id new_booking_id : Nat) (ie : Bool) :
    List Place → Except String Booking × DB
  | [] => (Except.error "NO_AVAILABLE_PLACES", db)
  | place :: rest =>
    match db.slots.find? (fun sl =>
        sl.place_id == some place.id && sl.start_time == s && sl.end_time == e) with
    | some exact_slot =>
      if exact_slot.is_available then
        if ie then (Except.error "NO_AVAILABLE_PLACES", db)
        else
          (Except.ok (mkRangeBooking new_booking_id user_id exact_slot.id zone s e),
           { db with
             slots := db.slots.map (fun sl =>
               if sl.id == exact_slot.id then { sl with is_available := false } else sl),
             bookings := db.bookings ++ [mkRangeBooking new_booking_id user_id exact_slot.id zone s e] })
      else tryPlaces db user_id zone s e new_slot_id new_booking_id ie rest
    | none =>
      if (db.slots.filter (fun sl =>
            sl.place_id == some place.id && sl.start_time < e && sl.end_time > s)).any
          (fun sl => !sl.is_available) then
        tryPlaces db user_id zone s e new_slot_id new_booking_id ie rest
      else
        if ie then (Except.error "NO_AVAILABLE_PLACES", db)
        else
          (Except.ok (mkRangeBooking new_booking_id user_id new_slot_id zone s e),
           { db with
             slots := db.slots ++
               [{ id := new_slot_id, place_id := some place.id,
                  start_time := s, end_time := e, is_available := false }],
             bookings := db.bookings ++ [mkRangeBooking new_booking_id user_id new_slot_id zone s e] })

/-- crud.create_booking_by_time_range, lines 304-463.  Minutes since the
epoch: a day contributes `1440`, an hour `60`.  `maxH` is
`settings.MAX_BOOKING_HOURS`; the source compares seconds
(`duration.total_seconds() > maxH * 3600`), which over whole minutes is
`duration > maxH * 60`. -/
def create_booking_by_time_range (db : DB) (user_id : Nat) (inp : BookingCreateTimeRange)
    (maxH : Nat) (new_slot_id new_booking_id : Nat) (ie : Bool) :
    Except String Booking × DB :=
  match inp.date with
  | none => (Except.error "INVALID_DATE", db)
  | some d =>
    let start_time : Int := d * 1440 + inp.start_hour * 60 + inp.start_minute
    let end_time : Int := d * 1440 + inp.end_hour * 60 + inp.end_minute
    let duration := end_time - start_time
    if duration ≤ 0 then (Except.error "INVALID_TIME_RANGE", db)
    else if duration > (maxH : Int) * 60 then (Except.error "TIME_LIMIT_EXCEEDED", db)
    else
      match findZone db inp.zone_id with
      | none => (Except.error "ZONE_INACTIVE", db)
      | some zone =>
        if !zone.is_active then (Except.error "ZONE_INACTIVE", db)
        else if check_user_booking_conflicts db user_id start_time end_time none then
          (Except.error "USER_CONFLICT", db)
        else if !check_zone_capacity db zone.id start_time end_time then
          (Except.error "ZONE_CAPACITY_EXCEEDED", db)
        else
          let places := db.places.filter (fun p => p.zone_id == some zone.id && p.is_active)
          if places.isEmpty then (Except.error "NO_AVAILABLE_PLACES", db)
          else tryPlaces db user_id zone start_time end_time new_slot_id new_booking_id ie places

/-- crud.cancel_booking, lines 478-523. -/
def cancel_booking (db : DB) (user_id booking_id : Nat) (is_admin : Bool) (ie : Bool) :
    Option Booking × DB :=
  match findBooking db booking_id with
  | none => (none, db)
  | some booking =>
    if !is_admin && booking.user_id != user_id then (none, db)
    else if booking.status != Status.active then (some booking, db)
    else if ie then (none, db)
    else
      match booking.slot_id with
      | some sid =>
        (match findSlot db sid with
         | some s =>
           (some { booking with status := Status.cancelled },
            { db with
              slots := db.slots.map (fun x =>
                if x.id == s.id then { x with is_available := true } else x),
              bookings := db.bookings.map (fun x =>
                if x.id == booking.id then { booking with status := Status.cancelled } else x) })
         | none =>
           (some { booking with status := Status.cancelled },
            { db with bookings := db.bookings.map (fun x =>
                if x.id == booking.id then { booking with status := Status.cancelled } else x) }))
      | none =>
        (some { booking with status := Status.cancelled },
         { db with bookings := db.bookings.map (fun x =>
             if x.id == booking.id then { booking with status := Status.cancelled } else x) })

/-- The checks and slot resolution of crud.extend_booking after the expiry
guard (lines 617-756).  `dur` is `timedelta(hours=extend_hours,
minutes=extend_minutes)` in minutes. -/
def extendRest (db : DB) (user_id : Nat) (booking : Booking) (booking_id : Nat)
    (dur : Int) (maxH : Nat) (new_slot_id new_booking_id : Nat) (ie : Bool) :
    Except String Booking × DB :=
  if booking.user_id != user_id then (Except.error "permission_denied", db)
  else if booking.status != Status.active then (Except.error "invalid_status", db)
  else
    match booking.start_time, booking.end_time with
    | some bs, some be =>
      match booking.slot_id with
      | none => (Except.error "slot_not_found", db)
      | some sid =>
        match findSlot db sid with
        | none => (Except.error "slot_not_found", db)
        | some slot =>
          if be + dur - bs > (maxH : Int) * 60 then (Except.error "max_duration_exceeded", db)
          else if check_user_booking_conflicts db user_id be (be + dur) (some booking_id) then
            (Except.error "user_time_conflict", db)
          else
            match resolveZone db slot.place_id with
            | none => (Except.error "zone_not_found", db)
            | some zone =>
              if !check_zone_capacity db zone.id be (be + dur) then
                (Except.error "zone_capacity_exceeded", db)
              else
                match db.slots.find? (fun sl =>
                    sl.place_id == slot.place_id &&
                    sl.start_time == be && sl.end_time == be + dur) with
                | some extended_slot =>
                  if extended_slot.is_available then
                    if ie then (Except.error "integrity_error", db)
                    else
                      (Except.ok (mkRangeBooking new_booking_id user_id extended_slot.id zone be (be + dur)),
                       { db with
                         slots := db.slots.map (fun sl =>
                           if sl.id == extended_slot.id then { sl with is_available := false } else sl),
                         bookings := db.bookings ++
                           [mkRangeBooking new_booking_id user_id extended_slot.id zone be (be + dur)] })
                  else (Except.error "slot_unavailable", db)
                | none =>
                  if (db.slots.filter (fun sl =>
                        sl.place_id == slot.place_id &&
                        sl.start_time < be + dur && sl.end_time > be)).any
                      (fun sl => !sl.is_available) then
                    (Except.error "slot_partially_occupied", db)
                  else if ie then (Except.error "integrity_error", db)
                  else
                    (Except.ok (mkRangeBooking new_booking_id user_id new_slot_id zone be (be + dur)),
                     { db with
                       slots := db.slots ++
                         [{ id := new_slot_id, place_id := slot.place_id,
                            start_time := be, end_time := be + dur, is_available := false }],
                       bookings := db.bookings ++
                         [mkRangeBooking new_booking_id user_id new_slot_id zone be (be + dur)] })
    | _, _ => (Except.error "invalid_data", db)

/-- crud.extend_booking, lines 579-763.  The expiry guard (lines 604-615)
runs right after the existence check: a booking already past its end is
auto-completed (that write commits) and the call fails `booking_expired`
before any ownership or status check. -/
def extend_booking (db : DB) (user_id booking_id : Nat)
    (extend_hours extend_minutes : Int) (now : Int) (maxH : Nat)
    (new_slot_id new_booking_id : Nat) (ie : Bool) : Except String Booking × DB :=
  match findBooking db booking_id with
  | none => (Except.error "booking_not_found", db)
  | some booking =>
    match booking.end_time with
    | some be =>
      if be ≤ now then
        (Except.error "booking_expired", auto_complete_expired_booking db booking now)
      else
        extendRest db user_id booking booking_id (extend_hours * 60 + extend_minutes)
          maxH new_slot_id new_booking_id ie
    | none =>
      extendRest db user_id booking booking_id (extend_hours * 60 + extend_minutes)
        maxH new_slot_id new_booking_id ie

structure ZoneCloseRequest where
  reason : String
  from_time : Int
  to_time : Int
deriving DecidableEq

/-- The join of crud.close_zone, lines 829-843: `active` bookings whose slot
lies in the zone being closed and overlaps the closure window
(`Slot.start_time < to_time AND Slot.end_time > from_time`). -/
def closeAffected (db : DB) (zone_id : Nat) (req : ZoneCloseRequest) (b : Booking) : Bool :=
  b.status == Status.active &&
  (match b.slot_id with
   | some sid =>
     (match findSlot db sid with
      | some sl =>
        (sl.start_time < req.to_time && sl.end_time > req.from_time) &&
        (match sl.place_id with
         | some pid =>
           (match findPlace db pid with
            | some p => p.zone_id == some zone_id && (findZone db zone_id).isSome
            | none => false)
         | none => false)
      | none => false)
   | none => false)

def closeCancel (req : ZoneCloseRequest) (b : Booking) : Booking :=
  { b with status := Status.cancelled,
           cancellation_reason := some ("Зона закрыта: " ++ req.reason) }

/-- crud.close_zone, lines 817-866: mark the zone inactive with the closure
reason and `closed_until`, cancel every affected booking, free their slots,
and return the affected bookings. -/
def close_zone (db : DB) (zone_id : Nat) (req : ZoneCloseRequest) :
    List Booking × DB :=
  match findZone db zone_id with
  | none => ([], db)
  | some zone =>
    let zone' := { zone with is_active := false,
                             closure_reason := some req.reason,
                             closed_until := some req.to_time }
    let db1 : DB := { db with zones := db.zones.map (fun z =>
                        if z.id == zone.id then zone' else z) }
    let freed : Nat → Bool := fun sid =>
      db1.bookings.any (fun b => closeAffected db1 zone_id req b && b.slot_id == some sid)
    let db2 : DB :=
      { db1 with
        bookings := db1.bookings.map (fun b =>
          if closeAffected db1 zone_id req b then closeCancel req b else b),
        slots := db1.slots.map (fun sl =>
          if freed sl.id then { sl with is_available := true } else sl) }
    ((db1.bookings.filter (closeAffected db1 zone_id req)).map (closeCancel req), db2)

/-- Primary-key uniqueness of the four tables. -/
def IdsNodup (db : DB) : Prop :=
  (db.zones.map Zone.id).Nodup ∧ (db.places.map Place.id).Nodup ∧
  (db.slots.map Slot.id).Nodup ∧ (db.bookings.map Booking.id).Nodup

/-- Foreign-key integrity of `Place.zone_id`. -/
def PlaceZoneFK (db : DB) : Prop :=
  ∀ p ∈ db.places, ∀ w : Nat, p.zone_id = some w → (findZone db w).isSome = true

/-- Foreign-key integrity of `Booking.slot_id`. -/
def BookingSlotFK (db : DB) : Prop :=
  ∀ b ∈ db.bookings, ∀ sid : Nat, b.slot_id = some sid → (findSlot db sid).isSome = true

/-- Store-level well-formedness: key uniqueness plus referential integrity,
what the schema's primary keys and foreign keys enforce. -/
def WF (db : DB) : Prop := IdsNodup db ∧ PlaceZoneFK db ∧ BookingSlotFK db

/-- The capacity invariant of the specification: at every instant, no zone
holds more simultaneously active bookings than it has active places. -/
def CapacityInv (db : DB) : Prop :=
  ∀ (zid : Nat) (t : Int), activeCountIn db zid t ≤ activePlaceCount db zid

/-- A store-assigned id that no existing slot row carries. -/
def FreshSlotId (db : DB) (n : Nat) : Prop := ∀ s ∈ db.slots, s.id ≠ n

/-- A store-assigned id that no existing booking row carries. -/
def FreshBookingId (db : DB) (n : Nat) : Prop := ∀ b ∈ db.bookings, b.id ≠ n

/-! ### Well-formedness, capacity invariant and the step relation -/

/-- One engine operation, as the state transformer it leaves behind.  The
store picks the fresh ids of inserted rows and whether a commit-time
uniqueness violation occurs (`ie`). -/
inductive Step : DB → DB → Prop where
  | create (db : DB) (uid sid nbid : Nat) (ie : Bool)
      (hfb : FreshBookingId db nbid) :
      Step db (create_booking db uid sid nbid ie).2
  | createRange (db : DB) (uid : Nat) (inp : BookingCreateTimeRange) (maxH nsid nbid : Nat)
      (ie : Bool) (hfs : FreshSlotId db nsid) (hfb : FreshBookingId db nbid) :
      Step db (create_booking_by_time_range db uid inp maxH nsid nbid ie).2
  | cancel (db : DB) (uid bid : Nat) (is_admin ie : Bool) :
      Step db (cancel_booking db uid bid is_admin ie).2
  | extend (db : DB) (uid bid : Nat) (eh em now : Int) (maxH nsid nbid : Nat) (ie : Bool)
      (hfs : FreshSlotId db nsid) (hfb : FreshBookingId db nbid) :
      Step db (extend_booking db uid bid eh em now maxH nsid nbid ie).2
  | autoOne (db : DB) (b : Booking) (now : Int) (hmem : b ∈ db.bookings) :
      Step db (auto_complete_expired_booking db b now)
  | autoSweep (db : DB) (now : Int) :
      Step db (auto_complete_expired_bookings db now)
  | close (db : DB) (zid : Nat) (req : ZoneCloseRequest) :
      Step db (close_zone db zid req).2

/-- Reachability by engine operations. -/
def Reachable (db db' : DB) : Prop := Relation.ReflTransGen Step db db'

/-! ### Concrete fixtures used by the witness theorems -/

def wZone : Zone := { id := 1, name := "Zone-1", address := "Main st 1", is_active := true }

def wPlace : Place := { id := 1, zone_id := some 1, is_active := true }

def wSlot : Slot :=
  { id := 1, place_id := some 1, start_time := 600, end_time := 720, is_available := false }

def wBooking : Booking :=
  { id := 1, user_id := 7, slot_id := some 1, status := Status.active,
    zone_name := some "Zone-1", zone_address := some "Main st 1",
    start_time := some 600, end_time := some 720 }

/-- One zone with one active place; user 7 holds an active 600-720 booking. -/
def wDB : DB := { zones := [wZone], places := [wPlace], slots := [wSlot], bookings := [wBooking] }

def wEmptyDB : DB := { zones := [wZone], places := [], slots := [], bookings := [] }

def wRangeInp : BookingCreateTimeRange :=
  { zone_id := 1, date := some 0, start_hour := 10, start_minute := 0,
    end_hour := 11, end_minute := 0 }

def wSlot2 : Slot :=
  { id := 2, place_id := some 1, start_time := 780, end_time := 840, is_available := true }

def wDB2 : DB :=
  { zones := [wZone], places := [wPlace], slots := [wSlot, wSlot2], bookings := [wBooking] }

def wCloseReq : ZoneCloseRequest :=
  { reason := "maintenance", from_time := 600, to_time := 1440 }

/-! ### Generic list lemmas used throughout -/

theorem find?_map_of_key {α : Type} (key : α → Nat) (g : α → α)
    (hg : ∀ x, key (g x) = key x) (l : List α) (n : Nat) :
    (l.map g).find? (fun x => key x == n) = (l.find? (fun x => key x == n)).map g := by
  induction l with
  | nil => rfl
  | cons a l ih =>
    simp only [List.map_cons, List.find?_cons]
    rcases h : (key a == n) with _ | _
    · have : (key (g a) == n) = false := by rw [hg]; exact h
      simp [this, h, ih]
    · have : (key (g a) == n) = true := by rw [hg]; exact h
      simp [this, h]

theorem find?_append_left {α : Type} (p : α → Bool) (l₁ l₂ : List α) (x : α)
    (h : l₁.find? p = some x) : (l₁ ++ l₂).find? p = some x := by
  induction l₁ with
  | nil => simp [List.find?] at h
  | cons a l ih =>
    rw [List.find?_cons] at h
    rw [show (a :: l) ++ l₂ = a :: (l ++ l₂) from rfl, List.find?_cons]
    rcases hp : p a with _ | _
    · rw [hp] at h; exact ih h
    · rw [hp] at h; exact h

theorem find?_append_none {α : Type} (p : α → Bool) (l₁ l₂ : List α)
    (h : l₁.find? p = none) : (l₁ ++ l₂).find? p = l₂.find? p := by
  induction l₁ with
  | nil => rfl
  | cons a l ih =>
    rw [List.find?_cons] at h
    rw [show (a :: l) ++ l₂ = a :: (l ++ l₂) from rfl, List.find?_cons]
    rcases hp : p a with _ | _
    · rw [hp] at h; exact ih h
    · rw [hp] at h; exact absurd h (by simp)

theorem length_filter_map_le {α : Type} (p q : α → Bool) (f : α → α) (l : List α)
    (h : ∀ x ∈ l, p (f x) = true → q x = true) :
    ((l.map f).filter p).length ≤ (l.filter q).length := by
  induction l with
  | nil => simp
  | cons a l ih =>
    have ih' := ih (fun x hx => h x (List.mem_cons_of_mem a hx))
    simp only [List.map_cons, List.filter_cons]
    rcases hp : p (f a) with _ | _
    · rcases hq : q a with _ | _
      · exact ih'
      · simpa using Nat.le_succ_of_le ih'
    · have := h a (List.mem_cons_self a l) hp
      simp [this]
      exact ih'

theorem length_filter_congr {α : Type} (p q : α → Bool) (l : List α)
    (h : ∀ x ∈ l, p x = q x) : (l.filter p).length = (l.filter q).length := by
  induction l with
  | nil => rfl
  | cons a l ih =>
    have ih' := ih (fun x hx => h x (List.mem_cons_of_mem a hx))
    have ha := h a (List.mem_cons_self a l)
    simp only [List.filter_cons, ha]
    rcases hq : q a with _ | _
    · simpa [hq] using ih'
    · simpa [hq] using ih'

theorem find?_of_mem_key_nodup {α : Type} (key : α → Nat) (x : α) :
    ∀ l : List α, (l.map key).Nodup → x ∈ l →
      l.find? (fun y => key y == key x) = some x := by
  intro l
  induction l with
  | nil => intro _ hx; simp at hx
  | cons a l ih =>
    intro hnd hx
    simp only [List.map_cons, List.nodup_cons] at hnd
    rcases List.mem_cons.mp hx with rfl | hx'
    · simp [List.find?_cons]
    · have hne : key a ≠ key x := by
        intro he
        exact hnd.1 (he ▸ List.mem_map_of_mem key hx')
      have hfa : (key a == key x) = false := by simp [hne]
      rw [List.find?_cons, hfa]
      exact ih hnd.2 hx'

theorem max_of_nonempty : ∀ {l : List Int}, l ≠ [] →
    ∃ p ∈ l, ∀ x ∈ l, x ≤ p := by
  intro l
  induction l with
  | nil => intro h; exact absurd rfl h
  | cons a l ih =>
    intro _
    by_cases hl : l = []
    · subst hl
      refine ⟨a, List.mem_cons_self _ _, ?_⟩
      intro x hx
      have hxa : x = a := by simpa using hx
      omega
    · obtain ⟨p, hp, hmax⟩ := ih hl
      by_cases hap : a ≤ p
      · refine ⟨p, List.mem_cons_of_mem a hp, ?_⟩
        intro x hx
        rcases List.mem_cons.mp hx with rfl | hx'
        · exact hap
        · exact hmax x hx'
      · refine ⟨a, List.mem_cons_self _ _, ?_⟩
        intro x hx
        rcases List.mem_cons.mp hx with rfl | hx'
        · omega
        · have := hmax x hx'
          omega

theorem pointOk_eq_spec (bs : List Booking) (cap : Nat) (s e t : Int) :
    pointOk bs cap s e t =
      (!(decide (s ≤ t) && decide (t < e)) || decide (countAt bs t + 1 ≤ cap)) := by
  unfold pointOk
  by_cases h1 : s ≤ t
  · by_cases h2 : t < e
    · have : ¬ (t < s || e ≤ t) = true := by simp; omega
      simp only [if_neg this]
      have : (decide (s ≤ t) && decide (t < e)) = true := by simp [h1, h2]
      simp [h1, h2]
    · have : (t < s || e ≤ t) = true := by simp; omega
      simp [this, h2]
  · have : (t < s || e ≤ t) = true := by simp; omega
    simp [this, h1]

theorem check_eq_spec (db : DB) (zid : Nat) (s e : Int) :
    check_zone_capacity db zid s e = checkZoneCapacitySpec db zid s e := by
  unfold check_zone_capacity checkZoneCapacitySpec
  by_cases h : activePlaceCount db zid == 0
  · simp [h]
  · simp only [h, if_false, Bool.false_eq_true]
    congr 1
    funext t
    exact pointOk_eq_spec _ _ _ _ _

/-- Every overlapping booking's start and end occur among the sweep points. -/
theorem timePoints_mem_of_booking {bs : List Booking} {b : Booking} (hb : b ∈ bs)
    {u v : Int} (hs : b.start_time = some u) (he : b.end_time = some v) (s e : Int) :
    u ∈ timePoints s e bs ∧ v ∈ timePoints s e bs := by
  unfold timePoints
  have : u ∈ bs.foldr
      (fun b acc =>
        match b.start_time, b.end_time with
        | some bs', some be' => bs' :: be' :: acc
        | _, _ => acc) [] ∧
    v ∈ bs.foldr
      (fun b acc =>
        match b.start_time, b.end_time with
        | some bs', some be' => bs' :: be' :: acc
        | _, _ => acc) [] := by
    induction bs with
    | nil => simp at hb
    | cons a l ih =>
      rcases List.mem_cons.mp hb with rfl | hb'
      · rw [List.foldr_cons, hs, he]
        exact ⟨List.mem_cons_self _ _, List.mem_cons_of_mem _ (List.mem_cons_self _ _)⟩
      · have ⟨iu, iv⟩ := ih hb'
        rw [List.foldr_cons]
        rcases a.start_time with _ | x <;> rcases a.end_time with _ | y
        all_goals simp only []
        · exact ⟨iu, iv⟩
        · exact ⟨iu, iv⟩
        · exact ⟨iu, iv⟩
        · exact ⟨List.mem_cons_of_mem _ (List.mem_cons_of_mem _ iu),
                 List.mem_cons_of_mem _ (List.mem_cons_of_mem _ iv)⟩
  exact ⟨List.mem_cons_of_mem _ (List.mem_cons_of_mem _ this.1),
         List.mem_cons_of_mem _ (List.mem_cons_of_mem _ this.2)⟩

theorem timePoints_mem_start (s e : Int) (bs : List Booking) : s ∈ timePoints s e bs :=
  List.mem_cons_self _ _

theorem length_filter_mono {α : Type} (p q : α → Bool) (l : List α)
    (h : ∀ x ∈ l, p x = true → q x = true) :
    (l.filter p).length ≤ (l.filter q).length := by
  have := length_filter_map_le p q id l (by simpa using h)
  simpa using this

theorem overlaps_of_contains {b : Booking} {s e t : Int} (h1 : s ≤ t) (h2 : t < e)
    (hc : containsT b t = true) : overlapsRange b s e = true := by
  unfold containsT at hc
  unfold overlapsRange
  rcases hbs : b.start_time with _ | u <;> rcases hbe : b.end_time with _ | v <;>
    rw [hbs, hbe] at hc <;> simp at hc ⊢ <;> omega

/-- Core soundness of the sweep: if every boundary point passes, then every
instant of the candidate window satisfies the capacity bound. -/
theorem sweep_sound {obs : List Booking} {cap : Nat} {s e t : Int}
    (hall : (timePoints s e obs).all (pointOk obs cap s e) = true)
    (h1 : s ≤ t) (h2 : t < e) : countAt obs t + 1 ≤ cap := by
  classical
  -- the boundary points at or before t (but not before s)
  set l := (timePoints s e obs).filter (fun x => decide (s ≤ x) && decide (x ≤ t)) with hl
  have hsl : s ∈ l := by
    rw [hl]
    refine List.mem_filter.mpr ⟨timePoints_mem_start s e obs, ?_⟩
    simp [h1]
  obtain ⟨p, hpl, hpmax⟩ := max_of_nonempty (l := l) (by intro h0; rw [h0] at hsl; simp at hsl)
  obtain ⟨hppts, hpb⟩ := List.mem_filter.mp (hl ▸ hpl)
  have hsp : s ≤ p := by
    have := hpb
    simp at this
    exact this.1
  have hpt : p ≤ t := by
    have := hpb
    simp at this
    exact this.2
  -- every booking containing t also contains the maximal point p
  have hmono : ∀ b ∈ obs, containsT b t = true → containsT b p = true := by
    intro b hb hc
    unfold containsT at hc ⊢
    rcases hbs : b.start_time with _ | u <;> rcases hbe : b.end_time with _ | v <;>
      rw [hbs, hbe] at hc
    · simp at hc
    · simp at hc
    · simp at hc
    · simp at hc ⊢
      obtain ⟨hut, htv⟩ := hc
      constructor
      · -- u ≤ p
        by_cases hsu : s ≤ u
        · have humem : u ∈ timePoints s e obs := (timePoints_mem_of_booking hb hbs hbe s e).1
          have : u ∈ l := by
            rw [hl]
            exact List.mem_filter.mpr ⟨humem, by simp [hsu, hut]⟩
          exact hpmax u this
        · omega
      · omega
  have hcount : countAt obs t ≤ countAt obs p := by
    unfold countAt
    exact length_filter_mono _ _ _ (fun b hb hc => hmono b hb hc)
  have hppass : pointOk obs cap s e p = true := List.all_eq_true.mp hall p hppts
  unfold pointOk at hppass
  have hpe : p < e := by omega
  have hnr : ¬ (p < s || e ≤ p) = true := by simp; omega
  rw [if_neg hnr] at hppass
  have : countAt obs p + (if s ≤ p && p < e then 1 else 0) ≤ cap := of_decide_eq_true hppass
  have hone : (if (s ≤ p && p < e : Bool) then 1 else 0) = 1 := by
    simp [hsp, hpe]
  omega

/-- Completeness of the sweep: if every instant of the window satisfies the
bound, every boundary point passes. -/
theorem sweep_complete {obs : List Booking} {cap : Nat} {s e : Int}
    (h : ∀ t : Int, s ≤ t → t < e → countAt obs t + 1 ≤ cap) :
    (timePoints s e obs).all (pointOk obs cap s e) = true := by
  refine List.all_eq_true.mpr ?_
  intro t _
  unfold pointOk
  by_cases hr : (t < s || e ≤ t) = true
  · simp [hr]
  · rw [if_neg hr]
    simp only [Bool.or_eq_true, decide_eq_true_eq, not_or, not_lt, not_le] at hr
    have := h t hr.1 hr.2
    have hone : (if (s ≤ t && t < e : Bool) then 1 else 0) = 1 := by
      simp [hr.1, hr.2]
    rw [hone]
    exact decide_eq_true this

theorem capacity_pos {db : DB} {zid : Nat} {s e : Int}
    (h : check_zone_capacity db zid s e = true) : 0 < activePlaceCount db zid := by
  unfold check_zone_capacity at h
  by_cases hc : activePlaceCount db zid == 0
  · rw [if_pos hc] at h; simp at h
  · simp at hc; omega

theorem capacity_all_points {db : DB} {zid : Nat} {s e : Int}
    (h : check_zone_capacity db zid s e = true) :
    (timePoints s e (overlappingActive db zid s e)).all
      (pointOk (overlappingActive db zid s e) (activePlaceCount db zid) s e) = true := by
  unfold check_zone_capacity at h
  by_cases hc : activePlaceCount db zid == 0
  · rw [if_pos hc] at h; simp at h
  · rw [if_neg hc] at h; exact h

/-- Soundness of `check_zone_capacity`: a passing check bounds the overlap
count at every instant of the candidate window. -/
theorem capacity_sound {db : DB} {zid : Nat} {s e : Int}
    (h : check_zone_capacity db zid s e = true) :
    ∀ t : Int, s ≤ t → t < e →
      countAt (overlappingActive db zid s e) t + 1 ≤ activePlaceCount db zid := by
  intro t h1 h2
  exact sweep_sound (capacity_all_points h) h1 h2

/-- Completeness of `check_zone_capacity` for a zone with at least one active
place. -/
theorem capacity_complete {db : DB} {zid : Nat} {s e : Int}
    (hcap : 0 < activePlaceCount db zid)
    (h : ∀ t : Int, s ≤ t → t < e →
      countAt (overlappingActive db zid s e) t + 1 ≤ activePlaceCount db zid) :
    check_zone_capacity db zid s e = true := by
  unfold check_zone_capacity
  have hc : ¬ (activePlaceCount db zid == 0) = true := by simp; omega
  rw [if_neg hc]
  exact sweep_complete h

theorem countAt_overlapping_eq {db : DB} {zid : Nat} {s e t : Int}
    (h1 : s ≤ t) (h2 : t < e) :
    countAt (overlappingActive db zid s e) t = activeCountIn db zid t := by
  unfold countAt overlappingActive activeCountIn
  rw [List.filter_filter]
  apply length_filter_congr
  intro b _
  unfold countedIn
  rcases hc : containsT b t with _ | _
  · simp [hc]
  · have := overlaps_of_contains h1 h2 hc
    rcases hz : slotInZone db zid b.slot_id with _ | _ <;>
      rcases hs : b.status == Status.active with _ | _ <;>
        simp [hc, this, hz, hs]

/-! ### Lookup and counting congruence lemmas -/

theorem findZone_id {db : DB} {w : Nat} {z : Zone} (h : findZone db w = some z) :
    z.id = w := by
  unfold findZone at h
  have := List.find?_some h
  simpa using this

theorem findZone_mem {db : DB} {w : Nat} {z : Zone} (h : findZone db w = some z) :
    z ∈ db.zones := by
  unfold findZone at h
  exact List.mem_of_find?_eq_some h

theorem findPlace_mem {db : DB} {pid : Nat} {p : Place} (h : findPlace db pid = some p) :
    p ∈ db.places := by
  unfold findPlace at h
  exact List.mem_of_find?_eq_some h

theorem findSlot_mem {db : DB} {sid : Nat} {sl : Slot} (h : findSlot db sid = some sl) :
    sl ∈ db.slots := by
  unfold findSlot at h
  exact List.mem_of_find?_eq_some h

theorem findBooking_mem {db : DB} {bid : Nat} {b : Booking}
    (h : findBooking db bid = some b) : b ∈ db.bookings := by
  unfold findBooking at h
  exact List.mem_of_find?_eq_some h

theorem findSlot_of_mem {db : DB} {sl : Slot}
    (hnd : (db.slots.map Slot.id).Nodup) (hmem : sl ∈ db.slots) :
    findSlot db sl.id = some sl := by
  unfold findSlot
  exact find?_of_mem_key_nodup Slot.id sl db.slots hnd hmem

theorem findPlace_of_mem {db : DB} {p : Place}
    (hnd : (db.places.map Place.id).Nodup) (hmem : p ∈ db.places) :
    findPlace db p.id = some p := by
  unfold findPlace
  exact find?_of_mem_key_nodup Place.id p db.places hnd hmem

theorem findSlot_eq_none_of_fresh {db : DB} {n : Nat} (h : FreshSlotId db n) :
    findSlot db n = none := by
  unfold findSlot
  apply List.find?_eq_none.mpr
  intro s hs
  simp [h s hs]

theorem findSlot_slots_map {db db' : DB} {g : Slot → Slot}
    (hs : db'.slots = db.slots.map g) (hg : ∀ s, (g s).id = s.id) (sid : Nat) :
    findSlot db' sid = (findSlot db sid).map g := by
  unfold findSlot
  rw [hs]
  exact find?_map_of_key Slot.id g hg db.slots sid

theorem findZone_zones_map {db db' : DB} {g : Zone → Zone}
    (hz : db'.zones = db.zones.map g) (hg : ∀ z, (g z).id = z.id) (w : Nat) :
    findZone db' w = (findZone db w).map g := by
  unfold findZone
  rw [hz]
  exact find?_map_of_key Zone.id g hg db.zones w

theorem findPlace_places_eq {db db' : DB} (hp : db'.places = db.places) (pid : Nat) :
    findPlace db' pid = findPlace db pid := by
  unfold findPlace
  rw [hp]

theorem slotInZone_congr {db db' : DB} {g : Slot → Slot}
    (hs : db'.slots = db.slots.map g) (hp : db'.places = db.places)
    (hg : ∀ s, (g s).id = s.id ∧ (g s).place_id = s.place_id)
    (zid : Nat) (sid? : Option Nat) :
    slotInZone db' zid sid? = slotInZone db zid sid? := by
  cases sid? with
  | none => rfl
  | some sid =>
    simp only [slotInZone]
    rw [findSlot_slots_map hs (fun s => (hg s).1) sid]
    rcases hfs : findSlot db sid with _ | sl
    · rfl
    · simp only [Option.map_some']
      rw [(hg sl).2]
      rcases hpl : sl.place_id with _ | pid
      · rfl
      · show (match findPlace db' pid with
              | none => false
              | some p => p.zone_id == some zid) =
            (match findPlace db pid with
              | none => false
              | some p => p.zone_id == some zid)
        rw [findPlace_places_eq hp pid]

theorem slotInZone_slots_append {db db' : DB} (ns : Slot)
    (hs : db'.slots = db.slots ++ [ns]) (hp : db'.places = db.places)
    {sid : Nat} {sl : Slot}
    (hfound : findSlot db sid = some sl) (zid : Nat) :
    slotInZone db' zid (some sid) = slotInZone db zid (some sid) := by
  have hfs' : findSlot db' sid = some sl := by
    unfold findSlot at hfound ⊢
    rw [hs]
    exact find?_append_left _ _ _ _ hfound
  have hfp : findPlace db' = findPlace db := funext (findPlace_places_eq hp)
  rw [show slotInZone db' zid (some sid) =
      (match findSlot db' sid with
        | none => false
        | some sl =>
          match sl.place_id with
          | none => false
          | some pid =>
            match findPlace db' pid with
            | none => false
            | some p => p.zone_id == some zid) from rfl,
    show slotInZone db zid (some sid) =
      (match findSlot db sid with
        | none => false
        | some sl =>
          match sl.place_id with
          | none => false
          | some pid =>
            match findPlace db pid with
            | none => false
            | some p => p.zone_id == some zid) from rfl,
    hfs', hfound, hfp]

theorem countedIn_congr_map {db db' : DB} {g : Slot → Slot}
    (hs : db'.slots = db.slots.map g) (hp : db'.places = db.places)
    (hg : ∀ s, (g s).id = s.id ∧ (g s).place_id = s.place_id)
    (zid : Nat) (t : Int) (b : Booking) :
    countedIn db' zid t b = countedIn db zid t b := by
  unfold countedIn
  rw [slotInZone_congr hs hp hg]

theorem countedIn_congr_append {db db' : DB} (ns : Slot)
    (hs : db'.slots = db.slots ++ [ns]) (hp : db'.places = db.places)
    {b : Booking}
    (hfk : ∀ sid : Nat, b.slot_id = some sid → (findSlot db sid).isSome = true)
    (zid : Nat) (t : Int) :
    countedIn db' zid t b = countedIn db zid t b := by
  unfold countedIn
  rcases hsid : b.slot_id with _ | sid
  · rfl
  · obtain ⟨sl, hsl⟩ := Option.isSome_iff_exists.mp (hfk sid hsid)
    rw [slotInZone_slots_append ns hs hp hsl]

theorem activePlaceCount_congr {db db' : DB} (hp : db'.places = db.places)
    (zid : Nat) : activePlaceCount db' zid = activePlaceCount db zid := by
  unfold activePlaceCount
  rw [hp]

/-- Monotone update: operations that only flip booking rows out of `active`
(and touch slot availability) can only lower every zone's simultaneous count. -/
theorem CapacityInv_of_map {db db' : DB} (f : Booking → Booking) (g : Slot → Slot)
    (hb : db'.bookings = db.bookings.map f)
    (hs : db'.slots = db.slots.map g) (hp : db'.places = db.places)
    (hg : ∀ s, (g s).id = s.id ∧ (g s).place_id = s.place_id)
    (hf : ∀ b, f b = b ∨ (f b).status ≠ Status.active)
    (hinv : CapacityInv db) : CapacityInv db' := by
  intro zid t
  have hle : activeCountIn db' zid t ≤ activeCountIn db zid t := by
    unfold activeCountIn
    rw [hb]
    apply length_filter_map_le
    intro b _ hcount
    rcases hf b with heq | hne
    · rw [heq] at hcount
      rwa [countedIn_congr_map hs hp hg] at hcount
    · exfalso
      unfold countedIn at hcount
      have : ((f b).status == Status.active) = false := by
        simp [hne]
      rw [this] at hcount
      simp at hcount
  calc activeCountIn db' zid t ≤ activeCountIn db zid t := hle
    _ ≤ activePlaceCount db zid := hinv zid t
    _ = activePlaceCount db' zid := (activePlaceCount_congr hp zid).symm

/-- Adding one booking that passed the capacity check for its zone preserves
the capacity invariant. -/
theorem CapacityInv_add {db db' : DB} (newB : Booking) (Z : Nat) (s e : Int)
    (hb : db'.bookings = db.bookings ++ [newB])
    (hst : newB.status = Status.active)
    (hstart : newB.start_time = some s) (hend : newB.end_time = some e)
    (hp : db'.places = db.places)
    (hold : ∀ b ∈ db.bookings, ∀ (zid : Nat) (t : Int),
      countedIn db' zid t b = countedIn db zid t b)
    (hzone : ∀ zid : Nat, slotInZone db' zid newB.slot_id = true → zid = Z)
    (hcap : check_zone_capacity db Z s e = true)
    (hinv : CapacityInv db) : CapacityInv db' := by
  intro zid t
  have hcnt : activeCountIn db' zid t =
      activeCountIn db zid t + (if countedIn db' zid t newB then 1 else 0) := by
    unfold activeCountIn
    rw [hb, List.filter_append, List.length_append]
    congr 1
    · exact length_filter_congr _ _ _ (fun b hbm => hold b hbm zid t)
    · rcases hc : countedIn db' zid t newB with _ | _ <;> simp [List.filter, hc]
  rw [hcnt, activePlaceCount_congr hp]
  by_cases hc : countedIn db' zid t newB = true
  · have hz : zid = Z := by
      unfold countedIn at hc
      simp only [Bool.and_eq_true] at hc
      exact hzone zid hc.1.2
    subst hz
    have hrange : s ≤ t ∧ t < e := by
      unfold countedIn containsT at hc
      rw [hstart, hend] at hc
      simp only [Bool.and_eq_true, decide_eq_true_eq] at hc
      exact hc.2
    have hsound := capacity_sound hcap t hrange.1 hrange.2
    rw [countAt_overlapping_eq hrange.1 hrange.2] at hsound
    rw [hc]
    simpa using hsound
  · have : countedIn db' zid t newB = false := by
      rcases h : countedIn db' zid t newB with _ | _
      · rfl
      · exact absurd h hc
    rw [this]
    simpa using hinv zid t

/-- Adding one booking whose slot resolves to no zone leaves every zone's
count unchanged. -/
theorem CapacityInv_add_nozone {db db' : DB} (newB : Booking)
    (hb : db'.bookings = db.bookings ++ [newB])
    (hp : db'.places = db.places)
    (hold : ∀ b ∈ db.bookings, ∀ (zid : Nat) (t : Int),
      countedIn db' zid t b = countedIn db zid t b)
    (hzone : ∀ zid : Nat, slotInZone db' zid newB.slot_id = false)
    (hinv : CapacityInv db) : CapacityInv db' := by
  intro zid t
  have hcfalse : countedIn db' zid t newB = false := by
    unfold countedIn
    rw [hzone]
    simp
  have hcnt : activeCountIn db' zid t = activeCountIn db zid t := by
    unfold activeCountIn
    rw [hb, List.filter_append, List.length_append]
    have h1 : (db.bookings.filter (countedIn db' zid t)).length =
        (db.bookings.filter (countedIn db zid t)).length :=
      length_filter_congr _ _ _ (fun b hbm => hold b hbm zid t)
    have h2 : ([newB].filter (countedIn db' zid t)).length = 0 := by
      simp [List.filter, hcfalse]
    rw [h1, h2]
    omega
  rw [hcnt, activePlaceCount_congr hp]
  exact hinv zid t

/-- Inversion of the place-then-zone loading chain. -/
theorem resolveZone_some {db : DB} {pid? : Option Nat} {z : Zone}
    (h : resolveZone db pid? = some z) :
    ∃ (pid : Nat) (p : Place) (w : Nat), pid? = some pid ∧ findPlace db pid = some p ∧
      p.zone_id = some w ∧ findZone db w = some z ∧ z.id = w := by
  rcases pid? with _ | pid
  · exact absurd h (by simp [resolveZone])
  · rw [show resolveZone db (some pid) =
        (match findPlace db pid with
         | none => none
         | some p =>
           match p.zone_id with
           | none => none
           | some w => findZone db w) from rfl] at h
    rcases hp : findPlace db pid with _ | p
    · rw [hp] at h
      simp at h
    · rw [hp] at h
      simp only [] at h
      rcases hw : p.zone_id with _ | w
      · rw [hw] at h
        simp at h
      · rw [hw] at h
        simp only [] at h
        exact ⟨pid, p, w, rfl, hp, hw, h, findZone_id h⟩

theorem findSlot_id {db : DB} {sid : Nat} {sl : Slot} (h : findSlot db sid = some sl) :
    sl.id = sid := by
  unfold findSlot at h
  have := List.find?_some h
  simpa using this

theorem findPlace_id {db : DB} {pid : Nat} {p : Place} (h : findPlace db pid = some p) :
    p.id = pid := by
  unfold findPlace at h
  have := List.find?_some h
  simpa using this

/-- A true zone-membership test decomposes into the underlying join chain. -/
theorem slotInZone_true_elim {db : DB} {zid sid : Nat}
    (h : slotInZone db zid (some sid) = true) :
    ∃ (sl : Slot) (pid : Nat) (p : Place), findSlot db sid = some sl ∧
      sl.place_id = some pid ∧ findPlace db pid = some p ∧ p.zone_id = some zid := by
  rw [show slotInZone db zid (some sid) =
      (match findSlot db sid with
       | none => false
       | some sl =>
         match sl.place_id with
         | none => false
         | some pid =>
           match findPlace db pid with
           | none => false
           | some p => p.zone_id == some zid) from rfl] at h
  rcases hfs : findSlot db sid with _ | sl
  · rw [hfs] at h
    simp at h
  · rw [hfs] at h
    simp only [] at h
    rcases hpl : sl.place_id with _ | pid
    · rw [hpl] at h
      simp at h
    · rw [hpl] at h
      simp only [] at h
      rcases hp : findPlace db pid with _ | p
      · rw [hp] at h
        simp at h
      · rw [hp] at h
        simp only [] at h
        exact ⟨sl, pid, p, rfl, hpl, hp, by simpa using h⟩

theorem resolveZone_eval {db : DB} {pid : Nat} {p : Place} {w : Nat}
    (hp : findPlace db pid = some p) (hw : p.zone_id = some w) :
    resolveZone db (some pid) = findZone db w := by
  rw [show resolveZone db (some pid) =
      (match findPlace db pid with
       | none => none
       | some p =>
         match p.zone_id with
         | none => none
         | some w => findZone db w) from rfl]
  rw [hp]
  simp only []
  rw [hw]

/-! ### Preservation of well-formedness -/

theorem nodup_ids_map {α : Type} (key : α → Nat) (g : α → α) (l : List α)
    (hg : ∀ x ∈ l, key (g x) = key x) (h : (l.map key).Nodup) :
    ((l.map g).map key).Nodup := by
  rw [List.map_map]
  have : l.map (key ∘ g) = l.map key := by
    apply List.map_congr_left
    intro x hx
    exact hg x hx
  rw [this]
  exact h

theorem nodup_ids_append {α : Type} (key : α → Nat) (l : List α) (x : α)
    (h : (l.map key).Nodup) (hf : ∀ y ∈ l, key y ≠ key x) :
    ((l ++ [x]).map key).Nodup := by
  rw [List.map_append]
  rw [List.nodup_append]
  refine ⟨h, List.nodup_singleton _, ?_⟩
  intro a ha hb
  simp only [List.map_cons, List.map_nil, List.mem_singleton] at hb
  subst hb
  obtain ⟨y, hy, hky⟩ := List.mem_map.mp ha
  exact hf y hy hky

/-- Well-formedness survives row-preserving rewrites of the four tables. -/
theorem WF_map {db db' : DB} (gz : Zone → Zone) (g : Slot → Slot) (f : Booking → Booking)
    (hz : db'.zones = db.zones.map gz) (hpl : db'.places = db.places)
    (hs : db'.slots = db.slots.map g) (hbk : db'.bookings = db.bookings.map f)
    (hgz : ∀ z, (gz z).id = z.id) (hg : ∀ s, (g s).id = s.id)
    (hfid : ∀ b ∈ db.bookings, (f b).id = b.id)
    (hfsl : ∀ b ∈ db.bookings, ∃ b0 ∈ db.bookings, (f b).slot_id = b0.slot_id)
    (hwf : WF db) : WF db' := by
  obtain ⟨⟨hnz, hnp, hns, hnb⟩, hpz, hbs⟩ := hwf
  refine ⟨⟨?_, ?_, ?_, ?_⟩, ?_, ?_⟩
  · rw [hz]
    exact nodup_ids_map Zone.id gz db.zones (fun z _ => hgz z) hnz
  · rw [hpl]
    exact hnp
  · rw [hs]
    exact nodup_ids_map Slot.id g db.slots (fun s _ => hg s) hns
  · rw [hbk]
    exact nodup_ids_map Booking.id f db.bookings hfid hnb
  · intro p hp w hw
    rw [hpl] at hp
    rw [findZone_zones_map hz hgz w, Option.isSome_map']
    exact hpz p hp w hw
  · intro b' hb' sid hsid
    rw [hbk] at hb'
    obtain ⟨b, hb, rfl⟩ := List.mem_map.mp hb'
    obtain ⟨b0, hb0, hsl0⟩ := hfsl b hb
    rw [findSlot_slots_map hs hg sid, Option.isSome_map']
    exact hbs b0 hb0 sid (hsl0 ▸ hsid)

/-- Well-formedness survives appending a fresh booking on an existing slot
while only flipping slot availability. -/
theorem WF_add_map {db db' : DB} (g : Slot → Slot) (nb : Booking)
    (hz : db'.zones = db.zones) (hpl : db'.places = db.places)
    (hs : db'.slots = db.slots.map g) (hbk : db'.bookings = db.bookings ++ [nb])
    (hg : ∀ s, (g s).id = s.id)
    (hfresh : FreshBookingId db nb.id)
    (hnbsl : ∀ sid : Nat, nb.slot_id = some sid → (findSlot db sid).isSome = true)
    (hwf : WF db) : WF db' := by
  obtain ⟨⟨hnz, hnp, hns, hnb⟩, hpz, hbs⟩ := hwf
  refine ⟨⟨?_, ?_, ?_, ?_⟩, ?_, ?_⟩
  · rw [hz]; exact hnz
  · rw [hpl]; exact hnp
  · rw [hs]
    exact nodup_ids_map Slot.id g db.slots (fun s _ => hg s) hns
  · rw [hbk]
    exact nodup_ids_append Booking.id db.bookings nb hnb (fun y hy => hfresh y hy)
  · intro p hp w hw
    rw [hpl] at hp
    have : findZone db' w = findZone db w := by
      unfold findZone
      rw [hz]
    rw [this]
    exact hpz p hp w hw
  · intro b' hb' sid hsid
    rw [hbk] at hb'
    rw [findSlot_slots_map hs hg sid, Option.isSome_map']
    rcases List.mem_append.mp hb' with hmem | hmem
    · exact hbs b' hmem sid hsid
    · have : b' = nb := by simpa using hmem
      subst this
      exact hnbsl sid hsid

/-- Well-formedness survives appending a fresh slot together with a fresh
booking referencing it. -/
theorem WF_add_append {db db' : DB} (ns : Slot) (nb : Booking)
    (hz : db'.zones = db.zones) (hpl : db'.places = db.places)
    (hs : db'.slots = db.slots ++ [ns]) (hbk : db'.bookings = db.bookings ++ [nb])
    (hfreshS : FreshSlotId db ns.id) (hfreshB : FreshBookingId db nb.id)
    (hnbsl : nb.slot_id = some ns.id)
    (hwf : WF db) : WF db' := by
  obtain ⟨⟨hnz, hnp, hns, hnb⟩, hpz, hbs⟩ := hwf
  have hfind : ∀ sid : Nat, (findSlot db sid).isSome = true →
      (findSlot db' sid).isSome = true := by
    intro sid hsome
    obtain ⟨sl, hsl⟩ := Option.isSome_iff_exists.mp hsome
    have : findSlot db' sid = some sl := by
      unfold findSlot at hsl ⊢
      rw [hs]
      exact find?_append_left _ _ _ _ hsl
    rw [this]
    rfl
  refine ⟨⟨?_, ?_, ?_, ?_⟩, ?_, ?_⟩
  · rw [hz]; exact hnz
  · rw [hpl]; exact hnp
  · rw [hs]
    exact nodup_ids_append Slot.id db.slots ns hns (fun y hy => hfreshS y hy)
  · rw [hbk]
    exact nodup_ids_append Booking.id db.bookings nb hnb (fun y hy => hfreshB y hy)
  · intro p hp w hw
    rw [hpl] at hp
    have : findZone db' w = findZone db w := by
      unfold findZone
      rw [hz]
    rw [this]
    exact hpz p hp w hw
  · intro b' hb' sid hsid
    rw [hbk] at hb'
    rcases List.mem_append.mp hb' with hmem | hmem
    · exact hfind sid (hbs b' hmem sid hsid)
    · have hbnb : b' = nb := by simpa using hmem
      subst hbnb
      rw [hnbsl] at hsid
      have hsideq : sid = ns.id := by
        injection hsid with hh
        exact hh.symm
      subst hsideq
      have hnone : findSlot db ns.id = none := findSlot_eq_none_of_fresh hfreshS
      have : findSlot db' ns.id = some ns := by
        unfold findSlot at hnone ⊢
        rw [hs, find?_append_none _ _ _ hnone]
        simp [List.find?]
      rw [this]
      rfl

/-! ### State shapes of the mutating operations -/

/-- Either the fixed-slot create leaves the store untouched, or it appended
one booking on a found slot (flipping that slot unavailable) after the zone
either failed to resolve or passed the capacity check. -/
theorem create_booking_cases (db : DB) (uid sid nbid : Nat) (ie : Bool) :
    (create_booking db uid sid nbid ie).2 = db ∨
    (∃ slot : Slot, findSlot db sid = some slot ∧
      (resolveZone db slot.place_id = none ∨
        (∃ z : Zone, resolveZone db slot.place_id = some z ∧
          check_zone_capacity db z.id slot.start_time slot.end_time = true)) ∧
      (create_booking db uid sid nbid ie).2 =
        { db with
          slots := db.slots.map (fun x =>
            if x.id == slot.id then { x with is_available := false } else x),
          bookings := db.bookings ++ [mkSlotBooking db nbid uid slot] }) := by
  rcases h : create_booking db uid sid nbid ie with ⟨r, db2⟩
  unfold create_booking at h
  repeat' split at h
  all_goals rw [Prod.mk.injEq] at h
  all_goals obtain ⟨hr, hdb⟩ := h
  · left; exact hdb.symm
  · left; exact hdb.symm
  · left; exact hdb.symm
  · left; exact hdb.symm
  · left; exact hdb.symm
  · left; exact hdb.symm
  · -- success branch
    right
    rename_i slot hfs hav hex hcf hcap hie
    refine ⟨slot, hfs, ?_, hdb.symm⟩
    rcases hz : resolveZone db slot.place_id with _ | z
    · exact Or.inl rfl
    · right
      refine ⟨z, rfl, ?_⟩
      rw [hz] at hcap
      simp at hcap
      exact hcap

/-- Either the place loop leaves the store untouched, or it reserved an
existing exact slot of one of the candidate places, or it created exactly one
fresh slot on one of them; in the two mutation shapes exactly one booking was
appended. -/
theorem tryPlaces_cases (db : DB) (uid : Nat) (zone : Zone) (s e : Int)
    (nsid nbid : Nat) (ie : Bool) :
    ∀ pls : List Place,
      (tryPlaces db uid zone s e nsid nbid ie pls).2 = db ∨
      (∃ place ∈ pls, ∃ ex : Slot,
        ex ∈ db.slots ∧ ex.place_id = some place.id ∧
        (tryPlaces db uid zone s e nsid nbid ie pls).2 =
          { db with
            slots := db.slots.map (fun sl =>
              if sl.id == ex.id then { sl with is_available := false } else sl),
            bookings := db.bookings ++ [mkRangeBooking nbid uid ex.id zone s e] }) ∨
      (∃ place ∈ pls,
        (tryPlaces db uid zone s e nsid nbid ie pls).2 =
          { db with
            slots := db.slots ++ [{ id := nsid, place_id := some place.id,
                                    start_time := s, end_time := e, is_available := false }],
            bookings := db.bookings ++ [mkRangeBooking nbid uid nsid zone s e] }) := by
  intro pls
  induction pls with
  | nil => left; rfl
  | cons place rest ih =>
    rcases h : tryPlaces db uid zone s e nsid nbid ie (place :: rest) with ⟨r, db2⟩
    unfold tryPlaces at h
    repeat' split at h
    · -- exact slot, available, integrity error
      rw [Prod.mk.injEq] at h
      left
      exact h.2.symm
    · -- exact slot, available, committed
      rw [Prod.mk.injEq] at h
      right; left
      rename_i ex heq hav hie
      have hmem := List.mem_of_find?_eq_some heq
      have hpred := List.find?_some heq
      simp only [Bool.and_eq_true, beq_iff_eq] at hpred
      exact ⟨place, List.mem_cons_self _ _, ex, hmem, hpred.1.1, h.2.symm⟩
    · -- exact slot busy: recurse
      rw [h] at ih
      rcases ih with hdb | ⟨place', hm, ex, hexm, hexp, hsh⟩ | ⟨place', hm, hsh⟩
      · left; exact hdb
      · right; left; exact ⟨place', List.mem_cons_of_mem _ hm, ex, hexm, hexp, hsh⟩
      · right; right; exact ⟨place', List.mem_cons_of_mem _ hm, hsh⟩
    · -- overlapping busy slot: recurse
      rw [h] at ih
      rcases ih with hdb | ⟨place', hm, ex, hexm, hexp, hsh⟩ | ⟨place', hm, hsh⟩
      · left; exact hdb
      · right; left; exact ⟨place', List.mem_cons_of_mem _ hm, ex, hexm, hexp, hsh⟩
      · right; right; exact ⟨place', List.mem_cons_of_mem _ hm, hsh⟩
    · -- no exact slot, free, integrity error
      rw [Prod.mk.injEq] at h
      left
      exact h.2.symm
    · -- no exact slot, free, fresh slot committed
      rw [Prod.mk.injEq] at h
      right; right
      exact ⟨place, List.mem_cons_self _ _, h.2.symm⟩

/-- Either extend's post-guard phase leaves the store untouched, or it
reserved an existing exact slot (or created one fresh slot) on the place of
the booking being extended, appending exactly one booking for the extension
window after its zone passed the capacity check. -/
theorem extendRest_cases (db : DB) (uid : Nat) (b : Booking) (bid : Nat) (dur : Int)
    (maxH nsid nbid : Nat) (ie : Bool) :
    (extendRest db uid b bid dur maxH nsid nbid ie).2 = db ∨
    (∃ (be : Int) (sp : Option Nat) (zone : Zone),
      resolveZone db sp = some zone ∧
      check_zone_capacity db zone.id be (be + dur) = true ∧
      ((∃ ex : Slot,
         db.slots.find? (fun sl =>
           sl.place_id == sp && sl.start_time == be && sl.end_time == be + dur) = some ex ∧
         (extendRest db uid b bid dur maxH nsid nbid ie).2 =
           { db with
             slots := db.slots.map (fun sl =>
               if sl.id == ex.id then { sl with is_available := false } else sl),
             bookings := db.bookings ++ [mkRangeBooking nbid uid ex.id zone be (be + dur)] }) ∨
       (extendRest db uid b bid dur maxH nsid nbid ie).2 =
           { db with
             slots := db.slots ++ [{ id := nsid, place_id := sp,
                                     start_time := be, end_time := be + dur,
                                     is_available := false }],
             bookings := db.bookings ++ [mkRangeBooking nbid uid nsid zone be (be + dur)] })) := by
  rcases h : extendRest db uid b bid dur maxH nsid nbid ie with ⟨r, db2⟩
  unfold extendRest at h
  repeat' split at h
  all_goals rw [Prod.mk.injEq] at h
  all_goals try (left; exact h.2.symm; done)
  · -- exact extension slot reserved
    right
    refine ⟨_, _, _, by assumption, ?_, Or.inl ⟨_, ?_, h.2.symm⟩⟩
    · simp_all
    · assumption
  · -- fresh extension slot created
    right
    refine ⟨_, _, _, by assumption, ?_, Or.inr h.2.symm⟩
    · simp_all

/-- The single-booking auto-complete either does nothing or flips the one
matching row to `completed`. -/
theorem auto_one_cases (db : DB) (b : Booking) (now : Int) :
    auto_complete_expired_booking db b now = db ∨
    auto_complete_expired_booking db b now =
      { db with bookings := db.bookings.map (fun x =>
          if x.id == b.id then { b with status := Status.completed } else x) } := by
  generalize h : auto_complete_expired_booking db b now = db2
  unfold auto_complete_expired_booking at h
  repeat' split at h
  · right; exact h.symm
  · left; exact h.symm
  · left; exact h.symm
  · left; exact h.symm

/-- Cancel either leaves the store untouched, or cancels one existing booking
(possibly also freeing one slot). -/
theorem cancel_booking_cases (db : DB) (uid bid : Nat) (is_admin ie : Bool) :
    (cancel_booking db uid bid is_admin ie).2 = db ∨
    (∃ booking ∈ db.bookings,
      ((cancel_booking db uid bid is_admin ie).2 =
        { db with bookings := db.bookings.map (fun x =>
            if x.id == booking.id then { booking with status := Status.cancelled } else x) }) ∨
      (∃ s : Slot, (cancel_booking db uid bid is_admin ie).2 =
        { db with
          slots := db.slots.map (fun x =>
            if x.id == s.id then { x with is_available := true } else x),
          bookings := db.bookings.map (fun x =>
            if x.id == booking.id then { booking with status := Status.cancelled } else x) })) := by
  rcases h : cancel_booking db uid bid is_admin ie with ⟨r, db2⟩
  unfold cancel_booking at h
  repeat' split at h
  all_goals rw [Prod.mk.injEq] at h
  all_goals try (left; exact h.2.symm; done)
  · -- slot found and freed
    right
    refine ⟨_, ?_, Or.inr ⟨_, h.2.symm⟩⟩
    exact findBooking_mem (by assumption)
  · -- slot id dangling
    right
    refine ⟨_, ?_, Or.inl h.2.symm⟩
    exact findBooking_mem (by assumption)
  · -- no slot reference
    right
    refine ⟨_, ?_, Or.inl h.2.symm⟩
    exact findBooking_mem (by assumption)

/-- The range create either leaves the store untouched or it delegated to
the place loop after its zone passed the capacity check for the requested
window. -/
theorem create_range_state (db : DB) (uid : Nat) (inp : BookingCreateTimeRange)
    (maxH nsid nbid : Nat) (ie : Bool) :
    (create_booking_by_time_range db uid inp maxH nsid nbid ie).2 = db ∨
    (∃ (zone : Zone) (s e : Int) (pls : List Place),
      check_zone_capacity db zone.id s e = true ∧
      pls = db.places.filter (fun p => p.zone_id == some zone.id && p.is_active) ∧
      create_booking_by_time_range db uid inp maxH nsid nbid ie =
        tryPlaces db uid zone s e nsid nbid ie pls) := by
  rcases h : create_booking_by_time_range db uid inp maxH nsid nbid ie with ⟨r, db2⟩
  unfold create_booking_by_time_range at h
  simp only [] at h
  repeat' split at h
  all_goals try (rw [Prod.mk.injEq] at h; left; exact h.2.symm; done)
  right
  refine ⟨_, _, _, _, ?_, rfl, h.symm⟩
  simp_all

/-- Unfold a true membership test into the place chain, given the slot is
findable under its own id. -/
theorem slotInZone_of_chain {db : DB} {slot : Slot}
    (hfs2 : findSlot db slot.id = some slot) {zid : Nat}
    (h : slotInZone db zid (some slot.id) = true) :
    ∃ (pid : Nat) (p : Place), slot.place_id = some pid ∧
      findPlace db pid = some p ∧ p.zone_id = some zid := by
  obtain ⟨sl', pid, p, hfs', hpl', hp', hz'⟩ := slotInZone_true_elim h
  have hsl : sl' = slot := by
    rw [hfs2] at hfs'
    exact (Option.some.inj hfs').symm
  subst hsl
  exact ⟨pid, p, hpl', hp', hz'⟩

/-- Preservation for the "reuse an existing slot" commit shape: flip one
slot's availability and append one fresh active booking on it. -/
theorem preserve_shapeA {db : DB} {nb : Booking} {ex : Slot} {Z : Nat} {s e : Int}
    (hwf : WF db) (hinv : CapacityInv db)
    (hexmem : ex ∈ db.slots)
    (hchain : ∀ zid : Nat,
      (∃ (pid : Nat) (p : Place), ex.place_id = some pid ∧
        findPlace db pid = some p ∧ p.zone_id = some zid) → zid = Z)
    (hcap : check_zone_capacity db Z s e = true)
    (hnbid : FreshBookingId db nb.id) (hnbsl : nb.slot_id = some ex.id)
    (hnbst : nb.status = Status.active)
    (hnbs : nb.start_time = some s) (hnbe : nb.end_time = some e) :
    WF { db with
          slots := db.slots.map (fun sl =>
            if sl.id == ex.id then { sl with is_available := false } else sl),
          bookings := db.bookings ++ [nb] } ∧
    CapacityInv { db with
          slots := db.slots.map (fun sl =>
            if sl.id == ex.id then { sl with is_available := false } else sl),
          bookings := db.bookings ++ [nb] } := by
  have hg : ∀ sl : Slot,
      ((fun sl => if sl.id == ex.id then { sl with is_available := false } else sl) sl).id = sl.id ∧
      ((fun sl => if sl.id == ex.id then { sl with is_available := false } else sl) sl).place_id
        = sl.place_id := by
    intro sl
    by_cases hc : (sl.id == ex.id) = true <;> simp [hc]
  have hfs2 : findSlot db ex.id = some ex :=
    findSlot_of_mem hwf.1.2.2.1 hexmem
  constructor
  · refine WF_add_map (fun sl =>
        if sl.id == ex.id then { sl with is_available := false } else sl) nb
      ?_ ?_ ?_ ?_ ?_ ?_ ?_ hwf
    · rfl
    · rfl
    · rfl
    · rfl
    · exact fun sl => (hg sl).1
    · exact hnbid
    · intro sid hsid
      rw [hnbsl] at hsid
      have : sid = ex.id := by
        injection hsid with hh
        exact hh.symm
      subst this
      rw [hfs2]
      rfl
  · refine CapacityInv_add nb Z s e ?_ hnbst hnbs hnbe ?_ ?_ ?_ hcap hinv
    · rfl
    · rfl
    · intro b _ zid t
      refine countedIn_congr_map ?_ ?_ hg zid t b <;> rfl
    · intro zid hsz
      rw [hnbsl] at hsz
      have hzeq : slotInZone { db with
          slots := db.slots.map (fun sl =>
            if sl.id == ex.id then { sl with is_available := false } else sl),
          bookings := db.bookings ++ [nb] } zid (some ex.id)
          = slotInZone db zid (some ex.id) := by
        refine slotInZone_congr ?_ ?_ hg zid (some ex.id) <;> rfl
      rw [hzeq] at hsz
      exact hchain zid (slotInZone_of_chain hfs2 hsz)

/-- Preservation for the "reuse an existing slot" commit shape when the
slot's place chain resolves to no zone at all. -/
theorem preserve_shapeA_nozone {db : DB} {nb : Booking} {ex : Slot}
    (hwf : WF db) (hinv : CapacityInv db)
    (hexmem : ex ∈ db.slots)
    (hchain : ∀ zid : Nat,
      ¬ (∃ (pid : Nat) (p : Place), ex.place_id = some pid ∧
        findPlace db pid = some p ∧ p.zone_id = some zid))
    (hnbid : FreshBookingId db nb.id) (hnbsl : nb.slot_id = some ex.id) :
    WF { db with
          slots := db.slots.map (fun sl =>
            if sl.id == ex.id then { sl with is_available := false } else sl),
          bookings := db.bookings ++ [nb] } ∧
    CapacityInv { db with
          slots := db.slots.map (fun sl =>
            if sl.id == ex.id then { sl with is_available := false } else sl),
          bookings := db.bookings ++ [nb] } := by
  have hg : ∀ sl : Slot,
      ((fun sl => if sl.id == ex.id then { sl with is_available := false } else sl) sl).id = sl.id ∧
      ((fun sl => if sl.id == ex.id then { sl with is_available := false } else sl) sl).place_id
        = sl.place_id := by
    intro sl
    by_cases hc : (sl.id == ex.id) = true <;> simp [hc]
  have hfs2 : findSlot db ex.id = some ex :=
    findSlot_of_mem hwf.1.2.2.1 hexmem
  constructor
  · refine WF_add_map (fun sl =>
        if sl.id == ex.id then { sl with is_available := false } else sl) nb
      ?_ ?_ ?_ ?_ ?_ ?_ ?_ hwf
    · rfl
    · rfl
    · rfl
    · rfl
    · exact fun sl => (hg sl).1
    · exact hnbid
    · intro sid hsid
      rw [hnbsl] at hsid
      have : sid = ex.id := by
        injection hsid with hh
        exact hh.symm
      subst this
      rw [hfs2]
      rfl
  · refine CapacityInv_add_nozone nb ?_ ?_ ?_ ?_ hinv
    · rfl
    · rfl
    · intro b _ zid t
      refine countedIn_congr_map ?_ ?_ hg zid t b <;> rfl
    · intro zid
      rw [hnbsl]
      have hzeq : slotInZone { db with
          slots := db.slots.map (fun sl =>
            if sl.id == ex.id then { sl with is_available := false } else sl),
          bookings := db.bookings ++ [nb] } zid (some ex.id)
          = slotInZone db zid (some ex.id) := by
        refine slotInZone_congr ?_ ?_ hg zid (some ex.id) <;> rfl
      rw [hzeq]
      rcases hb2 : slotInZone db zid (some ex.id) with _ | _
      · rfl
      · exact absurd (slotInZone_of_chain hfs2 hb2) (hchain zid)

/-- Preservation for the "create a fresh slot" commit shape: append one fresh
unavailable slot and one fresh active booking on it. -/
theorem preserve_shapeB {db : DB} {nb : Booking} {ns : Slot} {Z : Nat} {s e : Int}
    (hwf : WF db) (hinv : CapacityInv db)
    (hfreshS : FreshSlotId db ns.id)
    (hchain : ∀ zid : Nat,
      (∃ (pid : Nat) (p : Place), ns.place_id = some pid ∧
        findPlace db pid = some p ∧ p.zone_id = some zid) → zid = Z)
    (hcap : check_zone_capacity db Z s e = true)
    (hnbid : FreshBookingId db nb.id) (hnbsl : nb.slot_id = some ns.id)
    (hnbst : nb.status = Status.active)
    (hnbs : nb.start_time = some s) (hnbe : nb.end_time = some e) :
    WF { db with slots := db.slots ++ [ns], bookings := db.bookings ++ [nb] } ∧
    CapacityInv { db with slots := db.slots ++ [ns], bookings := db.bookings ++ [nb] } := by
  have hfsn : findSlot { db with slots := db.slots ++ [ns],
                                 bookings := db.bookings ++ [nb] } ns.id = some ns := by
    have hnone : findSlot db ns.id = none := findSlot_eq_none_of_fresh hfreshS
    unfold findSlot at hnone ⊢
    rw [show ({ db with slots := db.slots ++ [ns],
                        bookings := db.bookings ++ [nb] } : DB).slots = db.slots ++ [ns] from rfl]
    rw [find?_append_none _ _ _ hnone]
    simp [List.find?]
  constructor
  · refine WF_add_append ns nb ?_ ?_ ?_ ?_ hfreshS hnbid hnbsl hwf <;> rfl
  · refine CapacityInv_add nb Z s e ?_ hnbst hnbs hnbe ?_ ?_ ?_ hcap hinv
    · rfl
    · rfl
    · intro b hbm zid t
      refine countedIn_congr_append ns ?_ ?_ (fun sid hsid => hwf.2.2 b hbm sid hsid) zid t <;> rfl
    · intro zid hsz
      rw [hnbsl] at hsz
      obtain ⟨sl', pid, p, hfs', hpl', hp', hz'⟩ := slotInZone_true_elim hsz
      have hsl : sl' = ns := by
        rw [hfsn] at hfs'
        exact (Option.some.inj hfs').symm
      rw [hsl] at hpl'
      have hp'' : findPlace db pid = some p := by
        have := findPlace_places_eq
          (show ({ db with slots := db.slots ++ [ns],
                           bookings := db.bookings ++ [nb] } : DB).places = db.places from rfl) pid
        rw [← this]
        exact hp'
      exact hchain zid ⟨pid, p, hpl', hp'', hz'⟩

theorem preserve_create (db : DB) (uid sid nbid : Nat) (ie : Bool)
    (hfb : FreshBookingId db nbid) (hwf : WF db) (hinv : CapacityInv db) :
    WF (create_booking db uid sid nbid ie).2 ∧
    CapacityInv (create_booking db uid sid nbid ie).2 := by
  rcases create_booking_cases db uid sid nbid ie with hdb | ⟨slot, hfs, hzcase, hdb⟩
  · rw [hdb]
    exact ⟨hwf, hinv⟩
  · rw [hdb]
    have hfs2 : findSlot db slot.id = some slot := by
      rw [findSlot_id hfs]
      exact hfs
    have hexmem : slot ∈ db.slots := findSlot_mem hfs
    rcases hzcase with hnone | ⟨z, hz, hcap⟩
    · refine preserve_shapeA_nozone hwf hinv hexmem ?_ ?_ rfl
      · rintro zid ⟨pid, p, hpid, hp, hw⟩
        have hre : resolveZone db (some pid) = findZone db zid := resolveZone_eval hp hw
        rw [← hpid, hnone] at hre
        have hfk := hwf.2.1 p (findPlace_mem hp) zid hw
        rw [← hre] at hfk
        simp at hfk
      · exact hfb
    · refine preserve_shapeA hwf hinv hexmem ?_ hcap ?_ rfl rfl rfl rfl
      · rintro zid ⟨pid, p, hpid, hp, hw⟩
        obtain ⟨pid0, p0, w0, hpid0, hp0, hw0, hfz0, hzw0⟩ := resolveZone_some hz
        have hpe : pid0 = pid := Option.some.inj (hpid0.symm.trans hpid)
        subst hpe
        have hpp : p0 = p := Option.some.inj (hp0.symm.trans hp)
        subst hpp
        have hww : w0 = zid := Option.some.inj (hw0.symm.trans hw)
        exact (hzw0.trans hww).symm
      · exact hfb

theorem preserve_tryPlaces (db : DB) (uid : Nat) (zone : Zone) (s e : Int)
    (nsid nbid : Nat) (ie : Bool) (pls : List Place)
    (hpls : pls = db.places.filter (fun p => p.zone_id == some zone.id && p.is_active))
    (hcap : check_zone_capacity db zone.id s e = true)
    (hfs : FreshSlotId db nsid) (hfb : FreshBookingId db nbid)
    (hwf : WF db) (hinv : CapacityInv db) :
    WF (tryPlaces db uid zone s e nsid nbid ie pls).2 ∧
    CapacityInv (tryPlaces db uid zone s e nsid nbid ie pls).2 := by
  have hplace : ∀ place ∈ pls, place ∈ db.places ∧ place.zone_id = some zone.id := by
    intro place hm
    rw [hpls] at hm
    have := List.mem_filter.mp hm
    refine ⟨this.1, ?_⟩
    have h2 := this.2
    simp only [Bool.and_eq_true, beq_iff_eq] at h2
    exact h2.1
  have hchain0 : ∀ place ∈ pls, ∀ zid : Nat,
      (∃ (pid : Nat) (p : Place), some place.id = some pid ∧
        findPlace db pid = some p ∧ p.zone_id = some zid) → zid = zone.id := by
    rintro place hm zid ⟨pid, p, hpid, hp, hw⟩
    obtain ⟨hpm, hpz⟩ := hplace place hm
    have hpide : place.id = pid := Option.some.inj hpid
    have hfp : findPlace db place.id = some place := findPlace_of_mem hwf.1.2.1 hpm
    rw [hpide] at hfp
    have hpp : place = p := Option.some.inj (hfp.symm.trans hp)
    rw [← hpp] at hw
    exact (Option.some.inj (hpz.symm.trans hw)).symm
  rcases tryPlaces_cases db uid zone s e nsid nbid ie pls with
    hdb | ⟨place, hm, ex, hexmem, hexpid, hsh⟩ | ⟨place, hm, hsh⟩
  · rw [hdb]
    exact ⟨hwf, hinv⟩
  · rw [hsh]
    refine preserve_shapeA hwf hinv hexmem ?_ hcap ?_ rfl rfl rfl rfl
    · intro zid hch
      rw [hexpid] at hch
      exact hchain0 place hm zid hch
    · exact hfb
  · rw [hsh]
    refine preserve_shapeB hwf hinv hfs ?_ hcap ?_ rfl rfl rfl rfl
    · intro zid hch
      exact hchain0 place hm zid hch
    · exact hfb

theorem preserve_createRange (db : DB) (uid : Nat) (inp : BookingCreateTimeRange)
    (maxH nsid nbid : Nat) (ie : Bool)
    (hfs : FreshSlotId db nsid) (hfb : FreshBookingId db nbid)
    (hwf : WF db) (hinv : CapacityInv db) :
    WF (create_booking_by_time_range db uid inp maxH nsid nbid ie).2 ∧
    CapacityInv (create_booking_by_time_range db uid inp maxH nsid nbid ie).2 := by
  rcases create_range_state db uid inp maxH nsid nbid ie with
    hdb | ⟨zone, s, e, pls, hcap, hpls, heq⟩
  · rw [hdb]
    exact ⟨hwf, hinv⟩
  · have h2 : (create_booking_by_time_range db uid inp maxH nsid nbid ie).2 =
        (tryPlaces db uid zone s e nsid nbid ie pls).2 := by
      rw [heq]
    rw [h2]
    exact preserve_tryPlaces db uid zone s e nsid nbid ie pls hpls hcap hfs hfb hwf hinv

theorem preserve_cancelShape (db : DB) (booking : Booking) (hbm : booking ∈ db.bookings)
    (g : Slot → Slot) (hg : ∀ sl, (g sl).id = sl.id ∧ (g sl).place_id = sl.place_id)
    (hwf : WF db) (hinv : CapacityInv db) (st : Status) (hst : st ≠ Status.active) :
    WF { db with
          slots := db.slots.map g,
          bookings := db.bookings.map (fun x =>
            if x.id == booking.id then { booking with status := st } else x) } ∧
    CapacityInv { db with
          slots := db.slots.map g,
          bookings := db.bookings.map (fun x =>
            if x.id == booking.id then { booking with status := st } else x) } := by
  have hfid : ∀ x ∈ db.bookings,
      ((fun x => if x.id == booking.id then { booking with status := st } else x) x).id
        = x.id := by
    intro x _
    by_cases hc : (x.id == booking.id) = true
    · simp only [hc, if_true]
      exact (beq_iff_eq.mp hc).symm
    · simp [hc]
  have hfsl : ∀ b ∈ db.bookings, ∃ b0 ∈ db.bookings,
      ((fun x => if x.id == booking.id then { booking with status := st } else x) b).slot_id
        = b0.slot_id := by
    intro b hb
    by_cases hc : (b.id == booking.id) = true
    · exact ⟨booking, hbm, by simp [hc]⟩
    · exact ⟨b, hb, by simp [hc]⟩
  have hf2 : ∀ b : Booking,
      ((fun x => if x.id == booking.id then { booking with status := st } else x) b) = b ∨
      ((fun x => if x.id == booking.id then { booking with status := st } else x) b).status
        ≠ Status.active := by
    intro b
    by_cases hc : (b.id == booking.id) = true
    · right
      simpa [hc] using hst
    · left
      simp [hc]
  constructor
  · refine WF_map (fun z => z) g
      (fun x => if x.id == booking.id then { booking with status := st } else x)
      ?_ ?_ ?_ ?_ ?_ ?_ hfid hfsl hwf
    · simp
    · rfl
    · rfl
    · rfl
    · exact fun z => rfl
    · exact fun sl => (hg sl).1
  · refine CapacityInv_of_map
      (fun x => if x.id == booking.id then { booking with status := st } else x) g
      ?_ ?_ ?_ hg hf2 hinv
    · rfl
    · rfl
    · rfl

theorem preserve_cancel (db : DB) (uid bid : Nat) (is_admin ie : Bool)
    (hwf : WF db) (hinv : CapacityInv db) :
    WF (cancel_booking db uid bid is_admin ie).2 ∧
    CapacityInv (cancel_booking db uid bid is_admin ie).2 := by
  rcases cancel_booking_cases db uid bid is_admin ie with hdb | ⟨booking, hbm, hsh | ⟨slt, hsh⟩⟩
  · rw [hdb]
    exact ⟨hwf, hinv⟩
  · rw [hsh]
    constructor
    · refine WF_map (fun z => z) (fun sl => sl)
        (fun x => if x.id == booking.id then { booking with status := Status.cancelled } else x)
        ?_ ?_ ?_ ?_ ?_ ?_ ?_ ?_ hwf
      · simp
      · rfl
      · simp
      · rfl
      · exact fun z => rfl
      · exact fun sl => rfl
      · intro x _
        by_cases hc : (x.id == booking.id) = true
        · simp only [hc, if_true]
          exact (beq_iff_eq.mp hc).symm
        · simp [hc]
      · intro b hb
        by_cases hc : (b.id == booking.id) = true
        · exact ⟨booking, hbm, by simp [hc]⟩
        · exact ⟨b, hb, by simp [hc]⟩
    · refine CapacityInv_of_map
        (fun x => if x.id == booking.id then { booking with status := Status.cancelled } else x)
        (fun sl => sl) ?_ ?_ ?_ (fun sl => ⟨rfl, rfl⟩) ?_ hinv
      · rfl
      · simp
      · rfl
      · intro b
        by_cases hc : (b.id == booking.id) = true
        · right
          simp [hc]
        · left
          simp [hc]
  · rw [hsh]
    refine preserve_cancelShape db booking hbm
      (fun x => if x.id == slt.id then { x with is_available := true } else x) ?_ hwf hinv
      Status.cancelled ?_
    · intro sl
      by_cases hc : (sl.id == slt.id) = true <;> simp [hc]
    · intro h
      exact Status.noConfusion h

theorem preserve_autoOne (db : DB) (b : Booking) (now : Int) (hbm : b ∈ db.bookings)
    (hwf : WF db) (hinv : CapacityInv db) :
    WF (auto_complete_expired_booking db b now) ∧
    CapacityInv (auto_complete_expired_booking db b now) := by
  rcases auto_one_cases db b now with hdb | hsh
  · rw [hdb]
    exact ⟨hwf, hinv⟩
  · rw [hsh]
    refine preserve_cancelShape db b hbm (fun sl => sl) (fun sl => ⟨rfl, rfl⟩) hwf hinv
      Status.completed ?_ |>.imp ?_ ?_
    · intro h
      exact Status.noConfusion h
    · intro hw
      refine WF_map (fun z => z) (fun sl => sl)
        (fun x => if x.id == b.id then { b with status := Status.completed } else x)
        ?_ ?_ ?_ ?_ (fun z => rfl) (fun sl => rfl) ?_ ?_ hwf
      · simp
      · rfl
      · simp
      · rfl
      · intro x _
        by_cases hc : (x.id == b.id) = true
        · simp only [hc, if_true]
          exact (beq_iff_eq.mp hc).symm
        · simp [hc]
      · intro x hx
        by_cases hc : (x.id == b.id) = true
        · exact ⟨b, hbm, by simp [hc]⟩
        · exact ⟨x, hx, by simp [hc]⟩
    · intro hc
      refine CapacityInv_of_map
        (fun x => if x.id == b.id then { b with status := Status.completed } else x)
        (fun sl => sl) ?_ ?_ ?_ (fun sl => ⟨rfl, rfl⟩) ?_ hinv
      · rfl
      · simp
      · rfl
      · intro x
        by_cases hcx : (x.id == b.id) = true
        · right
          simp [hcx]
        · left
          simp [hcx]

theorem preserve_autoSweep (db : DB) (now : Int)
    (hwf : WF db) (hinv : CapacityInv db) :
    WF (auto_complete_expired_bookings db now) ∧
    CapacityInv (auto_complete_expired_bookings db now) := by
  have hfid : ∀ x ∈ db.bookings, (sweepComplete now x).id = x.id := by
    intro x _
    unfold sweepComplete
    by_cases hc : (x.status == Status.active &&
        (match x.end_time with | some be => decide (be ≤ now) | none => false)) = true <;>
      simp [hc]
  have hf2 : ∀ x : Booking, sweepComplete now x = x ∨
      (sweepComplete now x).status ≠ Status.active := by
    intro x
    unfold sweepComplete
    by_cases hc : (x.status == Status.active &&
        (match x.end_time with | some be => decide (be ≤ now) | none => false)) = true
    · right
      simp [hc]
    · left
      simp [hc]
  have hsh : auto_complete_expired_bookings db now =
      { db with bookings := db.bookings.map (sweepComplete now) } := rfl
  rw [hsh]
  constructor
  · refine WF_map (fun z => z) (fun sl => sl) (sweepComplete now)
      ?_ ?_ ?_ ?_ (fun z => rfl) (fun sl => rfl) hfid ?_ hwf
    · simp
    · rfl
    · simp
    · rfl
    · intro x hx
      refine ⟨x, hx, ?_⟩
      unfold sweepComplete
      by_cases hc : (x.status == Status.active &&
          (match x.end_time with | some be => decide (be ≤ now) | none => false)) = true <;>
        simp [hc]
  · refine CapacityInv_of_map (sweepComplete now) (fun sl => sl)
      ?_ ?_ ?_ (fun sl => ⟨rfl, rfl⟩) hf2 hinv
    · rfl
    · simp
    · rfl

theorem extend_booking_state (db : DB) (uid bid : Nat) (eh em now : Int)
    (maxH nsid nbid : Nat) (ie : Bool) :
    (extend_booking db uid bid eh em now maxH nsid nbid ie).2 = db ∨
    (∃ b ∈ db.bookings,
      (extend_booking db uid bid eh em now maxH nsid nbid ie).2 =
        auto_complete_expired_booking db b now) ∨
    (∃ b ∈ db.bookings,
      (extend_booking db uid bid eh em now maxH nsid nbid ie).2 =
        (extendRest db uid b bid (eh * 60 + em) maxH nsid nbid ie).2) := by
  rcases h : extend_booking db uid bid eh em now maxH nsid nbid ie with ⟨r, db2⟩
  unfold extend_booking at h
  repeat' split at h
  · rw [Prod.mk.injEq] at h
    exact Or.inl h.2.symm
  · rw [Prod.mk.injEq] at h
    exact Or.inr (Or.inl ⟨_, findBooking_mem (by assumption), h.2.symm⟩)
  · exact Or.inr (Or.inr ⟨_, findBooking_mem (by assumption), by rw [h]⟩)
  · exact Or.inr (Or.inr ⟨_, findBooking_mem (by assumption), by rw [h]⟩)

theorem preserve_extendRest (db : DB) (uid : Nat) (b : Booking) (bid : Nat) (dur : Int)
    (maxH nsid nbid : Nat) (ie : Bool)
    (hfs : FreshSlotId db nsid) (hfb : FreshBookingId db nbid)
    (hwf : WF db) (hinv : CapacityInv db) :
    WF (extendRest db uid b bid dur maxH nsid nbid ie).2 ∧
    CapacityInv (extendRest db uid b bid dur maxH nsid nbid ie).2 := by
  rcases extendRest_cases db uid b bid dur maxH nsid nbid ie with
    hdb | ⟨be, sp, zone, hrz, hcap, ⟨ex, hfind, hsh⟩ | hsh⟩
  · rw [hdb]
    exact ⟨hwf, hinv⟩
  · rw [hsh]
    have hexmem : ex ∈ db.slots := List.mem_of_find?_eq_some hfind
    have hpred := List.find?_some hfind
    simp only [Bool.and_eq_true, beq_iff_eq] at hpred
    have hexsp : ex.place_id = sp := hpred.1.1
    refine preserve_shapeA hwf hinv hexmem ?_ hcap ?_ rfl rfl rfl rfl
    · rintro zid ⟨pid, p, hpid, hp, hw⟩
      obtain ⟨pid0, p0, w0, hpid0, hp0, hw0, hfz0, hzw0⟩ := resolveZone_some hrz
      rw [hexsp, hpid0] at hpid
      have hpe : pid0 = pid := Option.some.inj hpid
      subst hpe
      have hpp : p0 = p := Option.some.inj (hp0.symm.trans hp)
      subst hpp
      have hww : w0 = zid := Option.some.inj (hw0.symm.trans hw)
      exact (hzw0.trans hww).symm
    · exact hfb
  · rw [hsh]
    refine preserve_shapeB hwf hinv hfs ?_ hcap ?_ rfl rfl rfl rfl
    · rintro zid ⟨pid, p, hpid, hp, hw⟩
      obtain ⟨pid0, p0, w0, hpid0, hp0, hw0, hfz0, hzw0⟩ := resolveZone_some hrz
      have hpe : pid0 = pid := Option.some.inj (hpid0.symm.trans hpid)
      subst hpe
      have hpp : p0 = p := Option.some.inj (hp0.symm.trans hp)
      subst hpp
      have hww : w0 = zid := Option.some.inj (hw0.symm.trans hw)
      exact (hzw0.trans hww).symm
    · exact hfb

theorem preserve_extend (db : DB) (uid bid : Nat) (eh em now : Int)
    (maxH nsid nbid : Nat) (ie : Bool)
    (hfs : FreshSlotId db nsid) (hfb : FreshBookingId db nbid)
    (hwf : WF db) (hinv : CapacityInv db) :
    WF (extend_booking db uid bid eh em now maxH nsid nbid ie).2 ∧
    CapacityInv (extend_booking db uid bid eh em now maxH nsid nbid ie).2 := by
  rcases extend_booking_state db uid bid eh em now maxH nsid nbid ie with
    hdb | ⟨b, hbm, hsh⟩ | ⟨b, hbm, hsh⟩
  · rw [hdb]
    exact ⟨hwf, hinv⟩
  · rw [hsh]
    exact preserve_autoOne db b now hbm hwf hinv
  · rw [hsh]
    exact preserve_extendRest db uid b bid (eh * 60 + em) maxH nsid nbid ie hfs hfb hwf hinv

theorem preserve_closeShape (db : DB) (gz : Zone → Zone) (req : ZoneCloseRequest)
    (P : Booking → Bool) (Q : Slot → Bool)
    (hgz : ∀ z, (gz z).id = z.id) (hwf : WF db) (hinv : CapacityInv db) :
    WF { db with
          zones := db.zones.map gz,
          bookings := db.bookings.map (fun b => if P b then closeCancel req b else b),
          slots := db.slots.map (fun sl =>
            if Q sl then { sl with is_available := true } else sl) } ∧
    CapacityInv { db with
          zones := db.zones.map gz,
          bookings := db.bookings.map (fun b => if P b then closeCancel req b else b),
          slots := db.slots.map (fun sl =>
            if Q sl then { sl with is_available := true } else sl) } := by
  have hg : ∀ sl : Slot,
      ((fun sl => if Q sl then { sl with is_available := true } else sl) sl).id = sl.id ∧
      ((fun sl => if Q sl then { sl with is_available := true } else sl) sl).place_id
        = sl.place_id := by
    intro sl
    simp only []
    by_cases hc : Q sl = true
    · rw [if_pos hc]
      exact ⟨rfl, rfl⟩
    · rw [if_neg hc]
      exact ⟨rfl, rfl⟩
  constructor
  · refine WF_map gz (fun sl => if Q sl then { sl with is_available := true } else sl)
      (fun b => if P b then closeCancel req b else b)
      rfl rfl rfl rfl hgz (fun sl => (hg sl).1) ?_ ?_ hwf
    · intro x _
      simp only []
      by_cases hc : P x = true
      · rw [if_pos hc]
        rfl
      · rw [if_neg hc]
    · intro b hb
      refine ⟨b, hb, ?_⟩
      simp only []
      by_cases hc : P b = true
      · rw [if_pos hc]
        rfl
      · rw [if_neg hc]
  · refine CapacityInv_of_map (fun b => if P b then closeCancel req b else b)
      (fun sl => if Q sl then { sl with is_available := true } else sl)
      rfl rfl rfl hg ?_ hinv
    intro b
    simp only []
    by_cases hc : P b = true
    · right
      rw [if_pos hc]
      intro hcon
      exact Status.noConfusion hcon
    · left
      rw [if_neg hc]

theorem preserve_close (db : DB) (zid : Nat) (req : ZoneCloseRequest)
    (hwf : WF db) (hinv : CapacityInv db) :
    WF (close_zone db zid req).2 ∧ CapacityInv (close_zone db zid req).2 := by
  rcases hz : findZone db zid with _ | zone
  · have hdb : (close_zone db zid req).2 = db := by
      unfold close_zone
      rw [hz]
    rw [hdb]
    exact ⟨hwf, hinv⟩
  · have hsh : (close_zone db zid req).2 =
        { db with
          zones := db.zones.map (fun z =>
            if z.id == zone.id then
              { zone with is_active := false, closure_reason := some req.reason,
                          closed_until := some req.to_time } else z),
          bookings := db.bookings.map (fun b =>
            if closeAffected { db with zones := db.zones.map (fun z =>
                if z.id == zone.id then
                  { zone with is_active := false, closure_reason := some req.reason,
                              closed_until := some req.to_time } else z) } zid req b
            then closeCancel req b else b),
          slots := db.slots.map (fun sl =>
            if ({ db with zones := db.zones.map (fun z =>
                  if z.id == zone.id then
                    { zone with is_active := false, closure_reason := some req.reason,
                                closed_until := some req.to_time } else z) } : DB).bookings.any
                (fun b => closeAffected { db with zones := db.zones.map (fun z =>
                    if z.id == zone.id then
                      { zone with is_active := false, closure_reason := some req.reason,
                                  closed_until := some req.to_time } else z) } zid req b &&
                  b.slot_id == some sl.id)
            then { sl with is_available := true } else sl) } := by
      unfold close_zone
      rw [hz]
    rw [hsh]
    refine preserve_closeShape db _ req _ _ ?_ hwf hinv
    intro z
    by_cases hc : (z.id == zone.id) = true
    · rw [if_pos hc]
      exact (beq_iff_eq.mp hc).symm
    · rw [if_neg hc]

theorem step_preserves {db db' : DB} (hstep : Step db db')
    (h : WF db ∧ CapacityInv db) : WF db' ∧ CapacityInv db' := by
  obtain ⟨hwf, hinv⟩ := h
  cases hstep with
  | create uid sid nbid ie hfb =>
    exact preserve_create db uid sid nbid ie hfb hwf hinv
  | createRange uid inp maxH nsid nbid ie hfs hfb =>
    exact preserve_createRange db uid inp maxH nsid nbid ie hfs hfb hwf hinv
  | cancel uid bid is_admin ie =>
    exact preserve_cancel db uid bid is_admin ie hwf hinv
  | extend uid bid eh em now maxH nsid nbid ie hfs hfb =>
    exact preserve_extend db uid bid eh em now maxH nsid nbid ie hfs hfb hwf hinv
  | autoOne b now hmem =>
    exact preserve_autoOne db b now hmem hwf hinv
  | autoSweep now =>
    exact preserve_autoSweep db now hwf hinv
  | close zid req =>
    exact preserve_close db zid req hwf hinv

/-! ### Claims -/

/-- Claim C1: the capacity invariant — for every zone `zid` and every instant
`t`, the number of `active` bookings whose slot lies in the zone and whose
interval contains `t` never exceeds the zone's count of active places — holds
in every store reachable by the engine's operations (fixed-slot create, create
by time range, cancel, extend, single and bulk auto-complete, zone closure)
from a well-formed store that satisfies it. -/
theorem claim_C1_capacity_invariant (db0 db : DB) (hreach : Reachable db0 db)
    (hwf : WF db0) (hinv : CapacityInv db0) : CapacityInv db := by
  have h : WF db ∧ CapacityInv db := by
    induction hreach with
    | refl => exact ⟨hwf, hinv⟩
    | tail hab hbc ih => exact step_preserves hbc ih
  exact h.2

/-- Witness for C1: one bulk auto-complete step out of the empty store. -/
theorem claim_C1_witness :
    CapacityInv (auto_complete_expired_bookings wEmptyDB 0) :=
  claim_C1_capacity_invariant wEmptyDB (auto_complete_expired_bookings wEmptyDB 0)
    (Relation.ReflTransGen.single (Step.autoSweep wEmptyDB 0))
    ⟨by unfold IdsNodup; decide, fun p hp => (List.not_mem_nil p hp).elim,
     fun b hb => (List.not_mem_nil b hb).elim⟩
    (fun zid t => Nat.zero_le _)

/-- Claim C2: `check_zone_capacity` returns false when the zone has zero
active places; otherwise it gathers the zone's active bookings that overlap
the candidate window and, for each distinct boundary point `t` (drawn from
the candidate's endpoints and the overlapping bookings' starts and ends) with
`startTime ≤ t < endTime`, counts the bookings containing `t` plus one for
the candidate itself, returning false exactly when some such count exceeds
the number of active places and true otherwise — it coincides with the
specification-side predicate `checkZoneCapacitySpec`. -/
theorem claim_C2_capacity_algorithm (db : DB) (zid : Nat) (s e : Int) :
    (activePlaceCount db zid = 0 → check_zone_capacity db zid s e = false) ∧
    check_zone_capacity db zid s e = checkZoneCapacitySpec db zid s e := by
  constructor
  · intro h
    unfold check_zone_capacity
    simp [h]
  · exact check_eq_spec db zid s e

/-- Witness for C2 at a zone with no active place. -/
theorem claim_C2_witness :
    check_zone_capacity wEmptyDB 1 0 60 = false :=
  (claim_C2_capacity_algorithm wEmptyDB 1 0 60).1 (by decide)

/-- Claim C3: sweep-line exactness.  For a zone with at least one active
place, evaluating the overlap count only at the boundary points is equivalent
to evaluating it at every instant: the check passes exactly when, at every
instant `t` of the candidate window, the number of active bookings of the
zone containing `t` plus one for the candidate stays within the active-place
count.  (Determinism and freedom from side effects hold because the embedded
check is a pure function of the database snapshot.) -/
theorem claim_C3_sweep_exact (db : DB) (zid : Nat) (s e : Int)
    (hcap : 0 < activePlaceCount db zid) :
    check_zone_capacity db zid s e = true ↔
      ∀ t : Int, s ≤ t → t < e → activeCountIn db zid t + 1 ≤ activePlaceCount db zid := by
  constructor
  · intro h t h1 h2
    have hs := capacity_sound h t h1 h2
    rwa [countAt_overlapping_eq h1 h2] at hs
  · intro h
    apply capacity_complete hcap
    intro t h1 h2
    rw [countAt_overlapping_eq h1 h2]
    exact h t h1 h2

/-- Witness for C3 on the one-place fixture. -/
theorem claim_C3_witness :
    check_zone_capacity wDB 1 720 840 = true ↔
      ∀ t : Int, 720 ≤ t → t < 840 → activeCountIn wDB 1 t + 1 ≤ activePlaceCount wDB 1 :=
  claim_C3_sweep_exact wDB 1 720 840 (by decide)

/-- Claim C7: a booking already past its end (`end_time ≤ now`) makes
`extend_booking` fail with `booking_expired`, and — when the booking is still
`active` — flips its status to `completed` as a committed side effect.  The
guard sits after the existence check and before the ownership and status
checks, so it fires for every caller `uid`. -/
theorem claim_C7_extend_expired (db : DB) (uid bid : Nat) (eh em now : Int)
    (maxH nsid nbid : Nat) (ie : Bool) (b : Booking) (be : Int)
    (hb : findBooking db bid = some b) (hbe : b.end_time = some be) (hpast : be ≤ now) :
    (extend_booking db uid bid eh em now maxH nsid nbid ie).1 =
      Except.error "booking_expired" ∧
    (b.status = Status.active →
      (extend_booking db uid bid eh em now maxH nsid nbid ie).2 =
        { db with bookings := db.bookings.map (fun x =>
            if x.id == b.id then { b with status := Status.completed } else x) }) := by
  unfold extend_booking
  rw [hb]
  simp only []
  rw [hbe]
  simp only []
  rw [if_pos hpast]
  refine ⟨rfl, ?_⟩
  intro hact
  unfold auto_complete_expired_booking
  rw [hbe]
  simp [hact, hpast]

/-- Witness for C7: user 99 (not the owner) extending booking 1 of `wDB`
past its end. -/
theorem claim_C7_witness :
    (extend_booking wDB 99 1 1 0 800 12 50 60 false).1 =
      Except.error "booking_expired" ∧
    (wBooking.status = Status.active →
      (extend_booking wDB 99 1 1 0 800 12 50 60 false).2 =
        { wDB with bookings := wDB.bookings.map (fun x =>
            if x.id == wBooking.id then { wBooking with status := Status.completed } else x) }) :=
  claim_C7_extend_expired wDB 99 1 1 0 800 12 50 60 false wBooking 720
    (by decide) (by decide) (by decide)

/-- Claim C8: idempotent cancel.  On a booking that is already `cancelled` or
`completed`, `cancel_booking` by the owner or an admin returns the booking
unchanged with no state change; a caller that is neither owner nor admin gets
an empty result with no state change. -/
theorem claim_C8_cancel_idempotent (db : DB) (uid bid : Nat) (is_admin ie : Bool)
    (b : Booking) (hb : findBooking db bid = some b) :
    (is_admin = false → b.user_id ≠ uid →
      cancel_booking db uid bid is_admin ie = (none, db)) ∧
    ((is_admin = true ∨ b.user_id = uid) → b.status ≠ Status.active →
      cancel_booking db uid bid is_admin ie = (some b, db)) := by
  unfold cancel_booking
  rw [hb]
  simp only []
  constructor
  · intro hadm huid
    rw [hadm]
    have hcond : (!false && b.user_id != uid) = true := by simp [huid]
    rw [if_pos hcond]
  · intro howner hst
    have hcond : (!is_admin && b.user_id != uid) = false := by
      rcases howner with h | h
      · simp [h]
      · simp [h]
    rw [hcond]
    have hne : (b.status != Status.active) = true := by
      simp [bne_iff_ne, hst]
    simp only [Bool.false_eq_true, if_false, hne, if_true]

/-- Witness for C8: admin cancelling the already-completed booking of a
fixture database returns it unchanged. -/
theorem claim_C8_witness :
    cancel_booking
      { wDB with bookings := [{ wBooking with status := Status.completed }] }
      99 1 true false =
    (some { wBooking with status := Status.completed },
     { wDB with bookings := [{ wBooking with status := Status.completed }] }) :=
  (claim_C8_cancel_idempotent
      { wDB with bookings := [{ wBooking with status := Status.completed }] }
      99 1 true false { wBooking with status := Status.completed } (by decide)).2
    (Or.inl rfl) (by decide)

/-- Claim C10: the expiry boundary is inclusive.  A booking whose `end_time`
equals the current instant is already expired: the single-booking
auto-complete flips it to `completed`, the bulk sweep flips it as well, and
`extend_booking` fails with `booking_expired` on it; the sweep leaves every
booking with `end_time` strictly after `now`, and every non-active booking,
unchanged. -/
theorem claim_C10_expiry_boundary (db : DB) (uid bid : Nat) (eh em : Int)
    (maxH nsid nbid : Nat) (ie : Bool) (b : Booking) (now : Int) :
    (b.end_time = some now → b.status = Status.active →
      auto_complete_expired_booking db b now =
        { db with bookings := db.bookings.map (fun x =>
            if x.id == b.id then { b with status := Status.completed } else x) }) ∧
    (b.end_time = some now → b.status = Status.active →
      sweepComplete now b = { b with status := Status.completed }) ∧
    (findBooking db bid = some b → b.end_time = some now →
      (extend_booking db uid bid eh em now maxH nsid nbid ie).1 =
        Except.error "booking_expired") ∧
    (auto_complete_expired_bookings db now).bookings = db.bookings.map (sweepComplete now) ∧
    (∀ b' : Booking,
      ((∀ v : Int, b'.end_time = some v → now < v) ∨ b'.status ≠ Status.active) →
      sweepComplete now b' = b') := by
  refine ⟨?_, ?_, ?_, rfl, ?_⟩
  · intro hbe hact
    unfold auto_complete_expired_booking
    rw [hbe]
    simp [hact]
  · intro hbe hact
    unfold sweepComplete
    rw [hbe]
    simp [hact]
  · intro hb hbe
    unfold extend_booking
    rw [hb]
    simp only []
    rw [hbe]
    simp only []
    rw [if_pos (le_refl now)]
  · intro b' hcond
    unfold sweepComplete
    rcases hcond with h | h
    · rcases hbe : b'.end_time with _ | v
      · simp
      · have := h v hbe
        have hlt : ¬ (v ≤ now) := by omega
        simp [hlt]
    · have : (b'.status == Status.active) = false := by
        simp [h]
      simp [this]

/-- Any successful run of the post-expiry part of extend produces a fresh
`active` booking starting at the original booking's end and ending `dur`
later, and only appends it to the booking table. -/
theorem extendRest_ok_shape {db : DB} {uid : Nat} {b : Booking} {bid : Nat} {dur : Int}
    {maxH nsid nbid : Nat} {ie : Bool} {nb : Booking} {db2 : DB}
    (h : extendRest db uid b bid dur maxH nsid nbid ie = (Except.ok nb, db2)) :
    ∃ be : Int, b.end_time = some be ∧
      nb.status = Status.active ∧ nb.start_time = some be ∧
      nb.end_time = some (be + dur) ∧ db2.bookings = db.bookings ++ [nb] := by
  unfold extendRest at h
  repeat' split at h
  all_goals try (exfalso; simp at h; done)
  all_goals
    rw [Prod.mk.injEq] at h
  all_goals
    obtain ⟨hok, hdb⟩ := h
  all_goals
    have hnb := (Except.ok.inj hok).symm
  all_goals
    subst hnb
  all_goals
    subst hdb
  · exact ⟨_, by assumption, rfl, rfl, rfl, rfl⟩
  · exact ⟨_, by assumption, rfl, rfl, rfl, rfl⟩

/-- Claim C6: extension never mutates the original booking.  After a
successful `extend_booking`, the original record is unchanged (looked up by
id it is exactly the old record, with its `start_time`, `end_time` and
`status` intact), and the returned booking is a new `active` record starting
at the original's `end_time` and ending the requested duration later. -/
theorem claim_C6_extension_pure (db : DB) (uid bid : Nat) (eh em now : Int)
    (maxH nsid nbid : Nat) (ie : Bool) (b nb : Booking) (db2 : DB)
    (hb : findBooking db bid = some b)
    (h : extend_booking db uid bid eh em now maxH nsid nbid ie = (Except.ok nb, db2)) :
    findBooking db2 bid = some b ∧
    nb.status = Status.active ∧
    nb.start_time = b.end_time ∧
    (∀ be : Int, b.end_time = some be → nb.end_time = some (be + (eh * 60 + em))) := by
  unfold extend_booking at h
  rw [hb] at h
  simp only [] at h
  rcases hbe : b.end_time with _ | be
  · rw [hbe] at h
    simp only [] at h
    obtain ⟨be', hbe', _⟩ := extendRest_ok_shape h
    rw [hbe] at hbe'
    exact absurd hbe' (by simp)
  · rw [hbe] at h
    simp only [] at h
    by_cases hle : be ≤ now
    · rw [if_pos hle] at h
      exact absurd h (by simp)
    · rw [if_neg hle] at h
      obtain ⟨be', hbe', hst, hns, hne, hbk⟩ := extendRest_ok_shape h
      rw [hbe] at hbe'
      have hbeq : be = be' := by injection hbe'
      subst hbeq
      refine ⟨?_, hst, hns, ?_⟩
      · unfold findBooking
        rw [hbk]
        exact find?_append_left _ _ _ _ hb
      · intro be0 hbe0
        have hbeq0 : be = be0 := by injection hbe0
        subst hbeq0
        exact hne

/-- Witness for C6: user 7 successfully extends the fixture booking
(600-720) by one hour at `now = 700`. -/
theorem claim_C6_witness :
    findBooking
      { wDB with
        slots := [wSlot,
          { id := 50, place_id := some 1, start_time := 720, end_time := 780,
            is_available := false }],
        bookings := [wBooking, mkRangeBooking 60 7 50 wZone 720 780] } 1 = some wBooking ∧
    (mkRangeBooking 60 7 50 wZone 720 780).status = Status.active ∧
    (mkRangeBooking 60 7 50 wZone 720 780).start_time = wBooking.end_time ∧
    (∀ be : Int, wBooking.end_time = some be →
      (mkRangeBooking 60 7 50 wZone 720 780).end_time = some (be + (1 * 60 + 0))) :=
  claim_C6_extension_pure wDB 7 1 1 0 700 12 50 60 false wBooking
    (mkRangeBooking 60 7 50 wZone 720 780)
    { wDB with
      slots := [wSlot,
        { id := 50, place_id := some 1, start_time := 720, end_time := 780,
          is_available := false }],
      bookings := [wBooking, mkRangeBooking 60 7 50 wZone 720 780] }
    (by decide) (by decide)

theorem tryPlaces_error {db : DB} {uid : Nat} {zone : Zone} {s e : Int}
    {nsid nbid : Nat} {ie : Bool} {pls : List Place} {c : String}
    (h : (tryPlaces db uid zone s e nsid nbid ie pls).1 = Except.error c) :
    c = "NO_AVAILABLE_PLACES" := by
  induction pls with
  | nil => exact (Except.error.inj h).symm
  | cons place rest ih =>
    unfold tryPlaces at h
    repeat' split at h
    all_goals first
      | exact ih h
      | exact (Except.error.inj h).symm
      | simp at h

theorem createRange_code (db : DB) (uid : Nat) (inp : BookingCreateTimeRange)
    (maxH nsid nbid : Nat) (ie : Bool) (c : String)
    (h : (create_booking_by_time_range db uid inp maxH nsid nbid ie).1 = Except.error c) :
    c = "INVALID_DATE" ∨ c = "INVALID_TIME_RANGE" ∨ c = "TIME_LIMIT_EXCEEDED" ∨
    c = "ZONE_INACTIVE" ∨ c = "USER_CONFLICT" ∨ c = "ZONE_CAPACITY_EXCEEDED" ∨
    c = "NO_AVAILABLE_PLACES" := by
  unfold create_booking_by_time_range at h
  simp only [] at h
  repeat' split at h
  all_goals first
    | exact Or.inl (Except.error.inj h).symm
    | exact Or.inr (Or.inl (Except.error.inj h).symm)
    | exact Or.inr (Or.inr (Or.inl (Except.error.inj h).symm))
    | exact Or.inr (Or.inr (Or.inr (Or.inl (Except.error.inj h).symm)))
    | exact Or.inr (Or.inr (Or.inr (Or.inr (Or.inl (Except.error.inj h).symm))))
    | exact Or.inr (Or.inr (Or.inr (Or.inr (Or.inr (Or.inl (Except.error.inj h).symm)))))
    | exact Or.inr (Or.inr (Or.inr (Or.inr (Or.inr (Or.inr (Except.error.inj h).symm)))))
    | exact Or.inr (Or.inr (Or.inr (Or.inr (Or.inr (Or.inr (tryPlaces_error h))))))

/-- Claim C4: create-by-time-range validates in the fixed order — parseable
date, positive interval, duration within `MAX_BOOKING_HOURS`, zone present
and active, no user conflict, capacity check — the first failing check names
the error, every error code is drawn from the seven-element set, and a zone
with zero active places fails the capacity check itself, so it reports
`ZONE_CAPACITY_EXCEEDED`, not a separate no-capacity code. -/
theorem claim_C4_range_validation (db : DB) (uid : Nat) (inp : BookingCreateTimeRange)
    (maxH nsid nbid : Nat) (ie : Bool) :
    (∀ c : String,
      (create_booking_by_time_range db uid inp maxH nsid nbid ie).1 = Except.error c →
      c = "INVALID_DATE" ∨ c = "INVALID_TIME_RANGE" ∨ c = "TIME_LIMIT_EXCEEDED" ∨
      c = "ZONE_INACTIVE" ∨ c = "USER_CONFLICT" ∨ c = "ZONE_CAPACITY_EXCEEDED" ∨
      c = "NO_AVAILABLE_PLACES") ∧
    (inp.date = none →
      (create_booking_by_time_range db uid inp maxH nsid nbid ie).1 =
        Except.error "INVALID_DATE") ∧
    (∀ d s e : Int, inp.date = some d →
      s = d * 1440 + inp.start_hour * 60 + inp.start_minute →
      e = d * 1440 + inp.end_hour * 60 + inp.end_minute →
      (e - s ≤ 0 →
        (create_booking_by_time_range db uid inp maxH nsid nbid ie).1 =
          Except.error "INVALID_TIME_RANGE") ∧
      (0 < e - s → (maxH : Int) * 60 < e - s →
        (create_booking_by_time_range db uid inp maxH nsid nbid ie).1 =
          Except.error "TIME_LIMIT_EXCEEDED") ∧
      (0 < e - s → e - s ≤ (maxH : Int) * 60 →
        (findZone db inp.zone_id = none →
          (create_booking_by_time_range db uid inp maxH nsid nbid ie).1 =
            Except.error "ZONE_INACTIVE") ∧
        (∀ z : Zone, findZone db inp.zone_id = some z →
          (z.is_active = false →
            (create_booking_by_time_range db uid inp maxH nsid nbid ie).1 =
              Except.error "ZONE_INACTIVE") ∧
          (z.is_active = true →
            (check_user_booking_conflicts db uid s e none = true →
              (create_booking_by_time_range db uid inp maxH nsid nbid ie).1 =
                Except.error "USER_CONFLICT") ∧
            (check_user_booking_conflicts db uid s e none = false →
              (check_zone_capacity db z.id s e = false →
                (create_booking_by_time_range db uid inp maxH nsid nbid ie).1 =
                  Except.error "ZONE_CAPACITY_EXCEEDED") ∧
              (activePlaceCount db z.id = 0 →
                (create_booking_by_time_range db uid inp maxH nsid nbid ie).1 =
                  Except.error "ZONE_CAPACITY_EXCEEDED")))))) := by
  refine ⟨fun c h => createRange_code db uid inp maxH nsid nbid ie c h, fun hd => ?_,
    fun d s e hd hs he => ?_⟩
  · unfold create_booking_by_time_range
    rw [hd]
  · unfold create_booking_by_time_range
    rw [hd]
    simp only []
    rw [← hs, ← he]
    refine ⟨fun hle => ?_, fun hpos hbig => ?_, fun hpos hok => ?_⟩
    · rw [if_pos hle]
    · rw [if_neg (not_le.mpr hpos), if_pos hbig]
    · rw [if_neg (not_le.mpr hpos), if_neg (not_lt.mpr hok)]
      refine ⟨fun hzn => ?_, fun z hz => ?_⟩
      · rw [hzn]
      · rw [hz]
        simp only []
        refine ⟨fun hinact => ?_, fun hact => ?_⟩
        · rw [hinact]
          rfl
        · have hna : ¬((!z.is_active) = true) := by
            rw [hact]
            decide
          rw [if_neg hna]
          refine ⟨fun hconf => ?_, fun hnconf => ?_⟩
          · rw [if_pos hconf]
          · have hnc : ¬(check_user_booking_conflicts db uid s e none = true) := by
              rw [hnconf]
              decide
            rw [if_neg hnc]
            have hcapgoal : ∀ hcapf : check_zone_capacity db z.id s e = false,
                (if (!check_zone_capacity db z.id s e) = true then
                    (Except.error "ZONE_CAPACITY_EXCEEDED", db)
                  else
                    (if (db.places.filter
                          (fun p => p.zone_id == some z.id && p.is_active)).isEmpty then
                      (Except.error "NO_AVAILABLE_PLACES", db)
                    else tryPlaces db uid z s e nsid nbid ie
                      (db.places.filter
                        (fun p => p.zone_id == some z.id && p.is_active)))).1 =
                  Except.error "ZONE_CAPACITY_EXCEEDED" := by
              intro hcapf
              have hpc : (!check_zone_capacity db z.id s e) = true := by
                rw [hcapf]
                rfl
              rw [if_pos hpc]
            refine ⟨fun hcapf => hcapgoal hcapf, fun hplz => ?_⟩
            refine hcapgoal ?_
            cases hcc : check_zone_capacity db z.id s e with
            | false => rfl
            | true =>
              have := capacity_pos hcc
              rw [hplz] at this
              exact absurd this (lt_irrefl 0)

/-- Witness for C4: booking 10:00-11:00 in the active but place-less zone of
`wEmptyDB` fails with `ZONE_CAPACITY_EXCEEDED`. -/
theorem claim_C4_witness :
    (create_booking_by_time_range wEmptyDB 7 wRangeInp 12 50 60 false).1 =
      Except.error "ZONE_CAPACITY_EXCEEDED" :=
  ((((((claim_C4_range_validation wEmptyDB 7 wRangeInp 12 50 60 false).2.2
    0 600 660 rfl (by decide) (by decide)).2.2 (by decide) (by decide)).2
    wZone (by decide)).2 rfl).2 (by decide)).2 (by decide)

/-- Claim C5: the fixed-slot create fails silently — `(none, db)`, no state
change — when the slot is missing, the slot is unavailable, the user already
holds an active booking on the slot, the user has an overlapping active
booking, the capacity checker rejects the interval, or commit raises an
integrity error; otherwise it inserts exactly one `active` booking carrying
the slot's interval and the denormalized zone name/address, and flips the
slot's `is_available` to false. -/
theorem claim_C5_slot_create (db : DB) (uid sid nbid : Nat) (ie : Bool) :
    (findSlot db sid = none → create_booking db uid sid nbid ie = (none, db)) ∧
    (∀ slot : Slot, findSlot db sid = some slot →
      (slot.is_available = false → create_booking db uid sid nbid ie = (none, db)) ∧
      (slot.is_available = true →
        (db.bookings.any (fun b => b.user_id == uid && b.slot_id == some slot.id &&
            b.status == Status.active) = true →
          create_booking db uid sid nbid ie = (none, db)) ∧
        (db.bookings.any (fun b => b.user_id == uid && b.slot_id == some slot.id &&
            b.status == Status.active) = false →
          (check_user_booking_conflicts db uid slot.start_time slot.end_time none = true →
            create_booking db uid sid nbid ie = (none, db)) ∧
          (check_user_booking_conflicts db uid slot.start_time slot.end_time none = false →
            (∀ z : Zone, resolveZone db slot.place_id = some z →
              check_zone_capacity db z.id slot.start_time slot.end_time = false →
              create_booking db uid sid nbid ie = (none, db)) ∧
            ((match resolveZone db slot.place_id with
              | some z => !(check_zone_capacity db z.id slot.start_time slot.end_time)
              | none => false) = false →
              (ie = true → create_booking db uid sid nbid ie = (none, db)) ∧
              (ie = false →
                create_booking db uid sid nbid ie =
                  (some (mkSlotBooking db nbid uid slot),
                   { db with
                     slots := db.slots.map (fun x =>
                       if x.id == slot.id then { x with is_available := false } else x),
                     bookings := db.bookings ++ [mkSlotBooking db nbid uid slot] }) ∧
                (mkSlotBooking db nbid uid slot).status = Status.active ∧
                (mkSlotBooking db nbid uid slot).start_time = some slot.start_time ∧
                (mkSlotBooking db nbid uid slot).end_time = some slot.end_time ∧
                (mkSlotBooking db nbid uid slot).zone_name =
                  (resolveZone db slot.place_id).map Zone.name ∧
                (mkSlotBooking db nbid uid slot).zone_address =
                  (resolveZone db slot.place_id).map Zone.address)))))) := by
  refine ⟨fun hmiss => ?_, fun slot hfs => ?_⟩
  · unfold create_booking
    rw [hmiss]
  · refine ⟨fun hnav => ?_, fun hav => ?_⟩
    · unfold create_booking
      rw [hfs]
      simp only []
      rw [hnav]
      rfl
    · refine ⟨fun hheld => ?_, fun hnheld => ?_⟩
      · unfold create_booking
        rw [hfs]
        simp only []
        rw [hav, hheld]
        rfl
      · refine ⟨fun hconf => ?_, fun hnconf => ?_⟩
        · unfold create_booking
          rw [hfs]
          simp only []
          rw [hav, hnheld, hconf]
          rfl
        · refine ⟨fun z hrz hcapf => ?_, fun hpass => ?_⟩
          · unfold create_booking
            rw [hfs]
            simp only []
            have hcond : (match resolveZone db slot.place_id with
                | some z => !(check_zone_capacity db z.id slot.start_time slot.end_time)
                | none => false) = true := by
              rw [hrz]
              simp only []
              rw [hcapf]
              rfl
            rw [hav, hnheld, hnconf, hcond]
            rfl
          · refine ⟨fun hie => ?_, fun hnie => ?_⟩
            · unfold create_booking
              rw [hfs]
              simp only []
              rw [hav, hnheld, hnconf, hpass, hie]
              rfl
            · refine ⟨?_, rfl, rfl, rfl, rfl, rfl⟩
              unfold create_booking
              rw [hfs]
              simp only []
              rw [hav, hnheld, hnconf, hpass, hnie]
              rfl

/-- Witness for C5: user 8 books the free evening slot of `wDB2`; the booking
is created `active` and the slot flips to unavailable. -/
theorem claim_C5_witness :
    create_booking wDB2 8 2 60 false =
      (some (mkSlotBooking wDB2 60 8 wSlot2),
       { wDB2 with
         slots := wDB2.slots.map (fun x =>
           if x.id == wSlot2.id then { x with is_available := false } else x),
         bookings := wDB2.bookings ++ [mkSlotBooking wDB2 60 8 wSlot2] }) ∧
    (mkSlotBooking wDB2 60 8 wSlot2).status = Status.active ∧
    (mkSlotBooking wDB2 60 8 wSlot2).start_time = some wSlot2.start_time ∧
    (mkSlotBooking wDB2 60 8 wSlot2).end_time = some wSlot2.end_time ∧
    (mkSlotBooking wDB2 60 8 wSlot2).zone_name =
      (resolveZone wDB2 wSlot2.place_id).map Zone.name ∧
    (mkSlotBooking wDB2 60 8 wSlot2).zone_address =
      (resolveZone wDB2 wSlot2.place_id).map Zone.address :=
  (((((((claim_C5_slot_create wDB2 8 2 60 false).2 wSlot2 (by decide)).2 rfl).2
    (by decide)).2 (by decide)).2 (by decide)).2 rfl)

theorem closeAffected_congr {db db' : DB} (gz : Zone → Zone)
    (hz : db'.zones = db.zones.map gz) (hgz : ∀ z, (gz z).id = z.id)
    (hp : db'.places = db.places) (hs : db'.slots = db.slots)
    (zid : Nat) (req : ZoneCloseRequest) (b : Booking) :
    closeAffected db' zid req b = closeAffected db zid req b := by
  unfold closeAffected findSlot findPlace
  rw [hp, hs, findZone_zones_map hz hgz zid, Option.isSome_map']

theorem closeAffected_iff (db : DB) (zid : Nat) (req : ZoneCloseRequest)
    (hzs : (findZone db zid).isSome = true) (b : Booking) :
    closeAffected db zid req b = true ↔
      (b.status = Status.active ∧ ∃ (sid : Nat) (sl : Slot), b.slot_id = some sid ∧
        findSlot db sid = some sl ∧ sl.start_time < req.to_time ∧
        sl.end_time > req.from_time ∧
        (∃ (pid : Nat) (p : Place), sl.place_id = some pid ∧
          findPlace db pid = some p ∧ p.zone_id = some zid)) := by
  unfold closeAffected
  constructor
  · intro h
    rw [Bool.and_eq_true] at h
    obtain ⟨hst, hrest⟩ := h
    rw [beq_iff_eq] at hst
    refine ⟨hst, ?_⟩
    rcases hsl : b.slot_id with _ | sid
    · rw [hsl] at hrest
      simp at hrest
    · rw [hsl] at hrest
      simp only [] at hrest
      rcases hfs : findSlot db sid with _ | sl
      · rw [hfs] at hrest
        simp at hrest
      · rw [hfs] at hrest
        simp only [] at hrest
        rw [Bool.and_eq_true, Bool.and_eq_true] at hrest
        obtain ⟨⟨h1, h2⟩, hm⟩ := hrest
        rw [decide_eq_true_eq] at h1 h2
        rcases hpid : sl.place_id with _ | pid
        · rw [hpid] at hm
          simp at hm
        · rw [hpid] at hm
          simp only [] at hm
          rcases hp : findPlace db pid with _ | p
          · rw [hp] at hm
            simp at hm
          · rw [hp] at hm
            simp only [] at hm
            rw [Bool.and_eq_true, beq_iff_eq] at hm
            exact ⟨sid, sl, rfl, hfs, h1, h2, pid, p, hpid, hp, hm.1⟩
  · rintro ⟨hst, sid, sl, hsl, hfs, h1, h2, pid, p, hpid, hp, hpz⟩
    rw [hsl]
    simp only []
    rw [hfs]
    simp only []
    rw [hpid]
    simp only []
    rw [hp]
    simp only []
    rw [Bool.and_eq_true]
    constructor
    · rw [beq_iff_eq]
      exact hst
    · rw [Bool.and_eq_true]
      constructor
      · rw [Bool.and_eq_true]
        exact ⟨decide_eq_true h1, decide_eq_true h2⟩
      · rw [Bool.and_eq_true]
        refine ⟨?_, hzs⟩
        rw [hpz]
        exact beq_self_eq_true (some zid)

/-- Claim C9: closing an existing zone marks it inactive with the reason and
`closed_until`, cancels (with the freed slot) exactly the bookings that were
`active` with a slot in the zone overlapping `[from_time, to_time)`, returns
that list of affected bookings, and leaves every other booking row as it
was. -/
theorem claim_C9_close_zone (db : DB) (zid : Nat) (req : ZoneCloseRequest)
    (zone : Zone) (hz : findZone db zid = some zone) :
    (close_zone db zid req).2.zones = db.zones.map (fun z =>
      if z.id == zone.id then
        { zone with is_active := false, closure_reason := some req.reason,
                    closed_until := some req.to_time } else z) ∧
    (close_zone db zid req).1 =
      (db.bookings.filter (closeAffected db zid req)).map (closeCancel req) ∧
    (close_zone db zid req).2.bookings = db.bookings.map (fun b =>
      if closeAffected db zid req b then closeCancel req b else b) ∧
    (close_zone db zid req).2.slots = db.slots.map (fun sl =>
      if db.bookings.any (fun b => closeAffected db zid req b && b.slot_id == some sl.id)
      then { sl with is_available := true } else sl) ∧
    (∀ b ∈ db.bookings, closeAffected db zid req b = false →
      b ∈ (close_zone db zid req).2.bookings) ∧
    (∀ b : Booking, (closeCancel req b).status = Status.cancelled ∧
      (closeCancel req b).cancellation_reason =
        some ("Зона закрыта: " ++ req.reason)) ∧
    (∀ b : Booking, closeAffected db zid req b = true ↔
      (b.status = Status.active ∧ ∃ (sid : Nat) (sl : Slot), b.slot_id = some sid ∧
        findSlot db sid = some sl ∧ sl.start_time < req.to_time ∧
        sl.end_time > req.from_time ∧
        (∃ (pid : Nat) (p : Place), sl.place_id = some pid ∧
          findPlace db pid = some p ∧ p.zone_id = some zid))) := by
  have hgz : ∀ z : Zone, ((fun z =>
      if z.id == zone.id then
        { zone with is_active := false, closure_reason := some req.reason,
                    closed_until := some req.to_time } else z) z).id = z.id := by
    intro z
    by_cases hc : (z.id == zone.id) = true
    · simp only [hc, if_true]
      exact (beq_iff_eq.mp hc).symm
    · simp [hc]
  have hcongr : ∀ b : Booking, closeAffected { db with zones := db.zones.map (fun z =>
      if z.id == zone.id then
        { zone with is_active := false, closure_reason := some req.reason,
                    closed_until := some req.to_time } else z) } zid req b =
      closeAffected db zid req b := by
    intro b
    refine closeAffected_congr _ ?_ hgz ?_ ?_ zid req b <;> rfl
  have h3 : (close_zone db zid req).2.bookings = db.bookings.map (fun b =>
      if closeAffected db zid req b then closeCancel req b else b) := by
    calc (close_zone db zid req).2.bookings
        = db.bookings.map (fun b =>
            if closeAffected { db with zones := db.zones.map (fun z =>
                if z.id == zone.id then
                  { zone with is_active := false, closure_reason := some req.reason,
                              closed_until := some req.to_time } else z) } zid req b
            then closeCancel req b else b) := by
          unfold close_zone
          rw [hz]
      _ = db.bookings.map (fun b =>
            if closeAffected db zid req b then closeCancel req b else b) :=
          List.map_congr_left (fun b _ => by rw [hcongr b])
  refine ⟨?_, ?_, h3, ?_, ?_, fun b => ⟨rfl, rfl⟩,
    fun b => closeAffected_iff db zid req (by rw [hz]; rfl) b⟩
  · unfold close_zone
    rw [hz]
  · calc (close_zone db zid req).1
        = (db.bookings.filter (closeAffected { db with zones := db.zones.map (fun z =>
            if z.id == zone.id then
              { zone with is_active := false, closure_reason := some req.reason,
                          closed_until := some req.to_time } else z) } zid req)).map
            (closeCancel req) := by
          unfold close_zone
          rw [hz]
      _ = (db.bookings.filter (closeAffected db zid req)).map (closeCancel req) :=
          congrArg _ (List.filter_congr (fun b _ => hcongr b))
  · calc (close_zone db zid req).2.slots
        = db.slots.map (fun sl =>
            if db.bookings.any (fun b =>
                closeAffected { db with zones := db.zones.map (fun z =>
                  if z.id == zone.id then
                    { zone with is_active := false, closure_reason := some req.reason,
                                closed_until := some req.to_time } else z) } zid req b &&
                b.slot_id == some sl.id)
            then { sl with is_available := true } else sl) := by
          unfold close_zone
          rw [hz]
      _ = db.slots.map (fun sl =>
            if db.bookings.any (fun b =>
                closeAffected db zid req b && b.slot_id == some sl.id)
            then { sl with is_available := true } else sl) :=
          List.map_congr_left (fun sl _ => by
            have hfe : (fun b => closeAffected { db with zones := db.zones.map (fun z =>
                if z.id == zone.id then
                  { zone with is_active := false, closure_reason := some req.reason,
                              closed_until := some req.to_time } else z) } zid req b &&
                b.slot_id == some sl.id) =
                (fun b => closeAffected db zid req b && b.slot_id == some sl.id) :=
              funext (fun b => by rw [hcongr b])
            rw [hfe])
  · intro b hb hfalse
    rw [h3]
    refine List.mem_map.mpr ⟨b, hb, ?_⟩
    show (if closeAffected db zid req b = true then closeCancel req b else b) = b
    rw [hfalse]
    rfl

/-- Witness for C9: closing zone 1 of `wDB` over 600-1440 cancels the fixture
booking and rewrites the store accordingly. -/
theorem claim_C9_witness :
    (close_zone wDB 1 wCloseReq).1 =
      (wDB.bookings.filter (closeAffected wDB 1 wCloseReq)).map (closeCancel wCloseReq) ∧
    (close_zone wDB 1 wCloseReq).2.bookings = wDB.bookings.map (fun b =>
      if closeAffected wDB 1 wCloseReq b then closeCancel wCloseReq b else b) :=
  ⟨(claim_C9_close_zone wDB 1 wCloseReq wZone (by decide)).2.1,
   (claim_C9_close_zone wDB 1 wCloseReq wZone (by decide)).2.2.1⟩

/-- Witness for C10 on the fixture booking ending exactly at `now = 720`. -/
theorem claim_C10_witness :
    (extend_booking wDB 7 1 1 0 720 12 50 60 false).1 =
      Except.error "booking_expired" :=
  (claim_C10_expiry_boundary wDB 7 1 1 0 12 50 60 false wBooking 720).2.2.1
    (by decide) (by decide)

end CoworkingBooking
